import Mathlib

/-!
# Verification of the CyLP algebraic modeling layer (`CyLP/py/modeling/CyLPModel.py`)

This file gives a shallow embedding of the modeling module: expression trees built
by operator overloading (`CyLPExpr`, `CyLPVar`), postfix evaluation into a constraint
accumulator (`CyLPConstraint.perform`, `CyLPExpr.evaluate`), index assignment
(`IndexFactory`), and model assembly (`CyLPModel.makeIndexFactory`,
`CyLPModel.generateVarMatrix`, `CyLPModel.makeMatrices`, `CyLPModel.addConstraint`).

Modeling conventions:
* Python floats are modeled as rationals (`ℚ`); the only arithmetic the module
  performs on bound/coefficient entries is copying and multiplication by scalars,
  so `ℚ` is a faithful carrier of the values that flow through it.
* Numpy arrays are `List ℚ`, numpy matrices `List (List ℚ)` (row-major).
* Python object identity is modeled by a numeric id `vid` carried by each
  `CyLPVar`; `CyLPVar.__getitem__` and `CyLPModel.addVariable` create new objects,
  so the model draws a fresh id for each.  The `varCoefs` dictionary of a
  constraint (a Python dict whose keys hash by `id`) is an association list keyed
  by the full `CyLPVar` record; distinct ids give distinct keys.
* In-place mutation of a variable's `lower`/`upper` numpy arrays is modeled by an
  explicit store `BoundStore` mapping a variable's id to its bound arrays, and
  `perform` returns the writes it makes (`BoundWrite`) which the evaluator applies
  to the store at once, preserving the original's order of effects and errors.
* The transient `expr` attribute (each operator repoints `left.expr` at the new
  node; `evaluate` resets it) is modeled, for variables, by a flag store mapping
  `vid` to `true` when `expr` points back at the variable itself.
* Python exceptions become `Except PyErr`; the model does not track the partially
  mutated state Python leaves behind when an exception escapes, since nothing in
  the module reads it afterwards.
-/

/-- `getCoinInfinity()` from the source: the bound sentinel `1.79769313486e+308`. -/
def getCoinInfinity : ℚ := 179769313486 * 10 ^ 297

/-- Errors of the embedding, standing for the Python exceptions the module can
raise.  `dimensionMismatch` and `rowConflict` are the two explicit `raise
Exception(...)` sites of the `*` branch of `perform` (for a 1-D coefficient of the
wrong length the original's message formatting itself dies on `left.shape[1]`;
both aborts at the dimension check are modeled as `dimensionMismatch`).
`comparisonError` is the `raise` for a comparison without exactly one constant
side.  The rest model exceptions coming from the Python runtime or numpy:
`shapeMismatch` a broadcast failure in an array assignment, `indexError` a bad or
missing index (including `operands.pop()` / `variables[0]` on empty),
`keyError` a failed dict lookup, `typeError`/`attributeError` unsupported
operands. -/
inductive PyErr where
  | dimensionMismatch
  | rowConflict
  | comparisonError
  | shapeMismatch
  | indexError
  | keyError
  | typeError
  | attributeError
deriving Repr, DecidableEq

/-- The data of a `CyLPVar` (a block variable or a slice view of one):
`name`, `dim`, `parentDim`, `parent` (the parent object's id for a slice),
`indices` (`none` for a whole variable, mirroring Python `None`), and the
`fromInd`/`toInd` attributes set by slice indexing (used only by `__repr__`).
`vid` models the Python object's identity. -/
structure CyLPVar where
  vid : Nat
  name : String
  dim : Nat
  parentDim : Nat
  parent : Option Nat
  indices : Option (List Nat)
  fromInd : Option Nat
  toInd : Option Nat
deriving Repr, DecidableEq

/-- Values appearing in expression trees and on the evaluation operand stack:
variables, scalars (`float`/`int`), `CyLPArray`s, numpy matrices, operator nodes
`CyLPExpr(opr, left, right)`, and stray Python strings (`pystr`): the class uses
`''` as the default `left` of unary nodes, and `evaluate` pushes any string that
is not an operator onto the operand stack. `pystr ""` also stands in for the
`None` default of `perform`'s `left` parameter on unary calls — `None` and `''`
are indistinguishable to every check `perform` makes. -/
inductive CyLPExpr where
  | var (v : CyLPVar)
  | num (q : ℚ)
  | arr (a : List ℚ)
  | matx (m : List (List ℚ))
  | node (opr : String) (left right : CyLPExpr)
  | pystr (s : String)
deriving Repr, DecidableEq

/-- `CyLPExpr.operators` from the source. -/
def cyOperators : List String := [">=", "<=", "==", "+", "-", "*", "u-", "sum"]

/-- `isinstance(e, CyLPExpr)`: variables and operator nodes (CyLPVar subclasses
CyLPExpr); numbers, arrays, matrices and strings are not. -/
def isCyExprVal : CyLPExpr → Bool
  | .var _ => true
  | .node _ _ _ => true
  | _ => false

/-- `isinstance(e, CyLPVar)`. -/
def isCyVarVal : CyLPExpr → Bool
  | .var _ => true
  | _ => false

/-- Python truthiness of the `nRows`/`fromInd`/`toInd` attributes, which hold
`None` or a number: `None` and `0` are falsy. -/
def npTruthy : Option Nat → Bool
  | none => false
  | some n => n != 0

/-- `CyLPVar.__repr__`: the name, `[from:to]` when `fromInd` and `toInd` are
truthy (so a slice starting at 0 prints as the bare name), else `[i]` for a
single-index view. -/
def CyLPVar.pyRepr (v : CyLPVar) : String :=
  if npTruthy v.fromInd && npTruthy v.toInd then
    v.name ++ "[" ++ toString (v.fromInd.getD 0) ++ ":" ++ toString (v.toInd.getD 0) ++ "]"
  else
    match v.indices with
    | some [i] => v.name ++ "[" ++ toString i ++ "]"
    | _ => v.name

/-- `CyLPExpr.__eq__` restricted to two `CyLPVar`s compares their string
representations; this is the equality Python's `in` uses on lists of variables
(`cons.variables`, `varCoefs.keys()`). -/
def pyVarEq (a b : CyLPVar) : Bool := a.pyRepr == b.pyRepr

/-- A recorded coefficient: a 1-D numpy array or a 2-D matrix. -/
inductive Coef where
  | vec (a : List ℚ)
  | mat (m : List (List ℚ))
deriving Repr, DecidableEq

/-- `arr *= -1` / `matrix *= -1`: elementwise negation of a coefficient. -/
def Coef.neg : Coef → Coef
  | .vec a => .vec (a.map (fun q => -q))
  | .mat m => .mat (m.map (fun r => r.map (fun q => -q)))

/-- A pending in-place write `target.lower[indices] = value` (or `.upper`)
emitted by the comparison branch of `perform`; `targetVid` is the id of the
variable object whose bound array is written (the parent for a slice). -/
structure BoundWrite where
  targetVid : Nat
  isLower : Bool
  indices : Option (List Nat)
  value : List ℚ
deriving Repr, DecidableEq

/-- The bound arrays of each variable object, keyed by id. -/
abbrev BoundStore := List (Nat × (List ℚ × List ℚ))

def storeLookup (st : BoundStore) (vid : Nat) : Option (List ℚ × List ℚ) :=
  (List.find? (fun p => p.1 == vid) st).map (fun p => p.2)

def storeSet (st : BoundStore) (vid : Nat) (b : List ℚ × List ℚ) : BoundStore :=
  List.map (fun p => if p.1 == vid then (p.1, b) else p) st

/-- Sequential numpy fancy-index store: `a[ids] = vals` position by position
(later duplicate indices win, as numpy buffers the gather). -/
def scatterList (a : List ℚ) (ids : List Nat) (vals : List ℚ) : List ℚ :=
  (ids.zip vals).foldl (fun acc p => acc.set p.1 p.2) a

/-- Numpy assignment `a[ids] = b` (with `ids = None` meaning `a[None] = b`, a
write through a view of shape `(1, len a)` that overwrites the whole array).
The value must broadcast to the indexed shape: equal length, or length 1. -/
def setBoundsAt (a : List ℚ) (ids : Option (List Nat)) (b : List ℚ) :
    Except PyErr (List ℚ) :=
  match ids with
  | none =>
      if b.length = a.length then .ok b
      else if b.length = 1 then .ok (List.replicate a.length (b.headD 0))
      else .error .shapeMismatch
  | some l =>
      if l.any (fun i => a.length ≤ i) then .error .indexError
      else if b.length = l.length then .ok (scatterList a l b)
      else if b.length = 1 then .ok (scatterList a l (List.replicate l.length (b.headD 0)))
      else .error .shapeMismatch

/-- Numpy in-place add `a[ids] += vals` (`ids = None`: `a[None] += vals`, which
adds to every entry).  The gathered values are buffered before the scatter. -/
def npFancyAdd (a : List ℚ) (ids : Option (List Nat)) (vals : List ℚ) :
    Except PyErr (List ℚ) :=
  match ids with
  | none =>
      if vals.length = a.length then .ok (List.zipWith (fun x y => x + y) a vals)
      else if vals.length = 1 then .ok (a.map (fun x => x + vals.headD 0))
      else .error .shapeMismatch
  | some l =>
      if l.any (fun i => a.length ≤ i) then .error .indexError
      else
        let g := l.map (fun i => a.getD i 0)
        if vals.length = l.length then
          .ok (scatterList a l (List.zipWith (fun x y => x + y) g vals))
        else if vals.length = 1 then
          .ok (scatterList a l (g.map (fun x => x + vals.headD 0)))
        else .error .shapeMismatch

/-- The constraint accumulator state (`CyLPConstraint.__init__`). -/
structure CyLPConstraint where
  varNames : List String
  parentVarDims : List (String × Nat)
  varCoefs : List (CyLPVar × Coef)
  lower : Option (List ℚ)
  upper : Option (List ℚ)
  nRows : Option Nat
  isRange : Bool
  «variables» : List CyLPVar
deriving Repr, DecidableEq

def CyLPConstraint.init : CyLPConstraint :=
  { varNames := [], parentVarDims := [], varCoefs := [], lower := none,
    upper := none, nRows := none, isRange := true, «variables» := [] }

/-- `d[k] = v` on a string-keyed dict, as an association list (replace or
append). -/
def dictSet (l : List (String × Nat)) (k : String) (v : Nat) : List (String × Nat) :=
  if l.any (fun p => p.1 == k) then
    l.map (fun p => if p.1 == k then (p.1, v) else p)
  else l ++ [(k, v)]

def dictGet (l : List (String × Nat)) (k : String) : Option Nat :=
  (List.find? (fun p => p.1 == k) l).map (fun p => p.2)

/-- The `if right.name not in self.varNames: append name; record parentDim`
prologue used on each variable operand. -/
def addVarName (c : CyLPConstraint) (v : CyLPVar) : CyLPConstraint :=
  if c.varNames.contains v.name then c
  else { c with varNames := c.varNames ++ [v.name],
                parentVarDims := dictSet c.parentVarDims v.name v.parentDim }

/-- `self.varCoefs[k] = coef`: dict store keyed by object identity (the full
`CyLPVar` record; fresh objects carry fresh ids). -/
def setCoef (l : List (CyLPVar × Coef)) (k : CyLPVar) (c : Coef) : List (CyLPVar × Coef) :=
  if l.any (fun p => p.1 == k) then
    l.map (fun p => if p.1 == k then (p.1, c) else p)
  else l ++ [(k, c)]

/-- `self.varCoefs[k]`: identity-keyed dict lookup. -/
def getCoef (l : List (CyLPVar × Coef)) (k : CyLPVar) : Option Coef :=
  (List.find? (fun p => p.1 == k) l).map (fun p => p.2)

/-- `self.varCoefs[k] *= -1`; `KeyError` when `k` is not a key (possible, since
the guarding `k in self.varCoefs.keys()` membership test uses the string-based
`__eq__` while the dict hashes by identity). -/
def mulCoefNeg (l : List (CyLPVar × Coef)) (k : CyLPVar) :
    Except PyErr (List (CyLPVar × Coef)) :=
  if l.any (fun p => p.1 == k) then
    .ok (l.map (fun p => if p.1 == k then (p.1, Coef.neg p.2) else p))
  else .error .keyError

/-- `k in self.varCoefs.keys()`: list membership under the string-based
`CyLPExpr.__eq__`. -/
def pyInKeys (l : List (CyLPVar × Coef)) (k : CyLPVar) : Bool :=
  l.any (fun p => pyVarEq p.1 k)

/-- `left.shape[-1]` for a 2-D matrix: the column count of the first row. -/
def matCols (m : List (List ℚ)) : Nat := (m.headD []).length

/-- The comparison operators, in source order. -/
def cyComparisonOps : List String := [">=", "<=", "=="]

/-- The operator tags `perform` dispatches on; `decodeOp` maps an operator
string to its tag (`other` for any non-operator string), mirroring the string
comparisons of the source. -/
inductive OpKind where
  | uminus | summ | mult | plus | minus | cmpLe | cmpGe | cmpEq | other
deriving Repr, DecidableEq

def decodeOp (opr : String) : OpKind :=
  if opr == "u-" then .uminus
  else if opr == "sum" then .summ
  else if opr == "*" then .mult
  else if opr == "+" then .plus
  else if opr == "-" then .minus
  else if opr == "<=" then .cmpLe
  else if opr == ">=" then .cmpGe
  else if opr == "==" then .cmpEq
  else .other

/-- First block of `perform`: the `isinstance(right, CyLPVar)` branch — the
varName prologue, then the `u-`, `sum`, `*` and `+`/`-` handling.  The `*`
branch re-creates the two `raise` sites (dimension check against
`left.shape[-1]`, row-count check against a truthy `self.nRows`); a `left`
that is no number and has no `.shape` (a variable, node or string) makes
Python die with `AttributeError`. -/
def performBlock1 (k : OpKind) (left right : CyLPExpr) (cons : CyLPConstraint) :
    Except PyErr CyLPConstraint :=
  match right with
  | .var rv =>
    let c := addVarName cons rv
    match k with
    | .uminus =>
        .ok { c with varCoefs := setCoef c.varCoefs rv (.vec (List.replicate rv.dim (-1))),
                     isRange := false, nRows := some rv.dim }
    | .summ => .ok c
    | .mult =>
        match left with
        | .num q =>
            if npTruthy c.nRows && c.nRows != some 1 then .error .rowConflict
            else .ok { c with nRows := some 1,
                              varCoefs := setCoef c.varCoefs rv (.vec (List.replicate rv.dim q)),
                              isRange := false }
        | .arr a =>
            if rv.dim != a.length then .error .dimensionMismatch
            else if npTruthy c.nRows && c.nRows != some 1 then .error .rowConflict
            else .ok { c with nRows := some 1,
                              varCoefs := setCoef c.varCoefs rv (.vec a), isRange := false }
        | .matx m =>
            if rv.dim != matCols m then .error .dimensionMismatch
            else if npTruthy c.nRows && c.nRows != some m.length then .error .rowConflict
            else .ok { c with nRows := some m.length,
                              varCoefs := setCoef c.varCoefs rv (.mat m), isRange := false }
        | _ => .error .attributeError
    | .plus | .minus =>
        let c2 := { c with isRange := false }
        let c3 :=
          match left with
          | .var lv =>
              addVarName { c2 with varCoefs := setCoef c2.varCoefs lv
                                                 (.vec (List.replicate lv.dim 1)),
                                   nRows := some 1 } lv
          | _ => c2
        if pyInKeys c3.varCoefs rv then
          match mulCoefNeg c3.varCoefs rv with
          | .ok vc => .ok { c3 with varCoefs := vc }
          | .error e => .error e
        else
          let ones2 : List ℚ :=
            if k == OpKind.minus then List.replicate rv.dim (-1) else List.replicate rv.dim 1
          .ok (addVarName { c3 with varCoefs := setCoef c3.varCoefs rv (.vec ones2),
                                    nRows := some 1 } rv)
    | _ => .ok c
  | _ => .ok cons

/-- Second block of `perform`: `left.__class__ == CyLPVar and opr in ('-','+')`
gives the left variable an all-ones coefficient (overwriting any previous one)
and row count 1. -/
def performBlock2 (k : OpKind) (left : CyLPExpr) (c : CyLPConstraint) : CyLPConstraint :=
  match left with
  | .var lv =>
      if k == OpKind.plus || k == OpKind.minus then
        addVarName { c with isRange := false,
                            varCoefs := setCoef c.varCoefs lv (.vec (List.replicate lv.dim 1)),
                            nRows := some 1 } lv
      else c
  | _ => c

/-- Third block of `perform`: `right.__class__ == CyLPExpr and opr == '-'` — the
right operand is a placeholder node `(l opr r)` and the coefficient recorded for
its own right child `right.right` is negated.  The dict lookup raises `KeyError`
when that child carries no coefficient (hashable but absent key) and
`TypeError` when it is an unhashable numpy value. -/
def performBlock3 (k : OpKind) (right : CyLPExpr) (c : CyLPConstraint) :
    Except PyErr CyLPConstraint :=
  match right with
  | .node _ _ rr =>
      if k == OpKind.minus then
        match rr with
        | .var rv2 =>
            match mulCoefNeg c.varCoefs rv2 with
            | .ok vc => .ok { c with isRange := false, varCoefs := vc }
            | .error e => .error e
        | .arr _ => .error .typeError
        | .matx _ => .error .typeError
        | _ => .error .keyError
      else .ok c
  | _ => .ok c

def isCmp (k : OpKind) : Bool := k == .cmpLe || k == .cmpGe || k == .cmpEq

/-- Fourth block of `perform`: the comparison operators.  Exactly one side must
be symbolic (`isinstance(_, CyLPExpr)`), else the `raise` modeled as
`comparisonError`.  In range mode the reference variable is `variables[0]` and
the bound length is its `parentDim`; otherwise it is the established `nRows`.
A scalar *right* operand is broadcast to that length.  Range mode emits
in-place writes into the (parent) variable's bound arrays; otherwise the
constraint's own `lower`/`upper` are set, the absent side defaulting to
`±getCoinInfinity`.  Bounds are modeled as 1-D arrays: a scalar bound sitting
left of the comparison, or a matrix bound — forms no overloaded operator
produces — are mapped to `typeError` here (Python would store them and fail
later, on `len(bound)` or on concatenation). -/
def performBlock4 (k : OpKind) (left right : CyLPExpr) (c : CyLPConstraint) :
    Except PyErr (CyLPConstraint × List BoundWrite) :=
  if isCmp k then
    let symL := isCyExprVal left
    let symR := isCyExprVal right
    if symL && !symR || symR && !symL then
      let bound : CyLPExpr := if symL && !symR then right else left
      match (if c.isRange then
               match c.variables with
               | [] => Except.error PyErr.indexError
               | v :: _ => Except.ok (some v, v.parentDim, { c with nRows := some v.parentDim })
             else
               match c.nRows with
               | none => Except.error PyErr.typeError
               | some n => Except.ok ((none : Option CyLPVar), n, c)) with
      | .error e => .error e
      | .ok (rv, dim, c1) =>
          match (match right with
                 | .num q => Except.ok (List.replicate dim q)
                 | _ =>
                     match bound with
                     | .arr a => Except.ok a
                     | _ => Except.error PyErr.typeError) with
          | .error e => .error e
          | .ok bnd =>
              let condLower := (k == OpKind.cmpGe || k == OpKind.cmpEq) && symL ||
                               (k == OpKind.cmpLe || k == OpKind.cmpEq) && symR
              let condUpper := (k == OpKind.cmpLe || k == OpKind.cmpEq) && symL ||
                               (k == OpKind.cmpGe || k == OpKind.cmpEq) && symR
              if c1.isRange then
                match rv with
                | some v =>
                    let tgt := v.parent.getD v.vid
                    let ws :=
                      (if condLower then [BoundWrite.mk tgt true v.indices bnd] else []) ++
                      (if condUpper then [BoundWrite.mk tgt false v.indices bnd] else [])
                    .ok (c1, ws)
                | none => .error .indexError
              else
                let c2 := if condLower then
                            { c1 with lower := some bnd,
                                      upper := some (c1.upper.getD
                                        (List.replicate bnd.length getCoinInfinity)) }
                          else c1
                let c3 := if condUpper then
                            { c2 with upper := some bnd,
                                      lower := some (c2.lower.getD
                                        (List.replicate bnd.length (-getCoinInfinity))) }
                          else c2
                .ok (c3, [])
    else .error .comparisonError
  else .ok (c, [])

/-- `CyLPConstraint.perform(opr, left, right)`: the four sequential blocks of
the source, threaded in order.  In-place bound writes are returned for the
caller to apply (see `BoundWrite`). -/
def CyLPConstraint.perform (cons : CyLPConstraint) (opr : String) (left right : CyLPExpr) :
    Except PyErr (CyLPConstraint × List BoundWrite) :=
  let k := decodeOp opr
  match performBlock1 k left right cons with
  | .error e => .error e
  | .ok c1 =>
      let c2 := performBlock2 k left c1
      match performBlock3 k right c2 with
      | .error e => .error e
      | .ok c3 => performBlock4 k left right c3

/-- A token of the postfix stream: an operand value or an operator string. -/
abbrev Tok := CyLPExpr ⊕ String

/-- `CyLPExpr.getPostfix`: left subtree tokens, right subtree tokens, then the
operator; a bare variable is its own single-token form; constants are single
tokens (including the `''` left child of unary nodes, which `evaluate` will
push as an operand since it is no operator). -/
def CyLPExpr.getPostfix : CyLPExpr → List Tok
  | .var v => [.inl (.var v)]
  | .node o l r =>
      (if isCyExprVal l then l.getPostfix else [.inl l]) ++
      (if isCyExprVal r then r.getPostfix else [.inl r]) ++ [.inr o]
  | e => [.inl e]

/-- The per-variable `expr`-pointer state: `true` when the variable's `expr`
attribute points back to the variable itself. -/
abbrev FlagStore := List (Nat × Bool)

def flagSet (fl : FlagStore) (vid : Nat) (b : Bool) : FlagStore :=
  if fl.any (fun p => p.1 == vid) then
    List.map (fun p => if p.1 == vid then (p.1, b) else p) fl
  else fl ++ [(vid, b)]

def flagLookup (fl : FlagStore) (vid : Nat) : Option Bool :=
  (List.find? (fun p => p.1 == vid) fl).map (fun p => p.2)

/-- Apply one pending bound write: look up the target variable's arrays and
perform the numpy assignment on the chosen side. -/
def applyWrite (st : BoundStore) (w : BoundWrite) : Except PyErr BoundStore :=
  match storeLookup st w.targetVid with
  | none => .error .keyError
  | some (lo, hi) =>
      if w.isLower then
        match setBoundsAt lo w.indices w.value with
        | .ok lo2 => .ok (storeSet st w.targetVid (lo2, hi))
        | .error e => .error e
      else
        match setBoundsAt hi w.indices w.value with
        | .ok hi2 => .ok (storeSet st w.targetVid (lo, hi2))
        | .error e => .error e

/-- Apply pending writes in order, stopping at the first failure. -/
def applyWrites (st : BoundStore) : List BoundWrite → Except PyErr BoundStore
  | [] => .ok st
  | w :: rest =>
      match applyWrite st w with
      | .ok st2 => applyWrites st2 rest
      | .error e => .error e

/-- One token of `evaluate`'s replay loop: operands are pushed (a variable is
also recorded in `cons.variables` unless an equal-printing one is present);
an operator pops its operand(s) — right first — calls `perform`, and pushes a
placeholder node; a non-operator string is pushed as an operand. -/
def stepTok (c : CyLPConstraint) (stack : List CyLPExpr) (t : Tok) :
    Except PyErr (CyLPConstraint × List CyLPExpr × List BoundWrite) :=
  match t with
  | .inl e =>
      let c1 := match e with
                | .var v =>
                    if c.variables.any (fun w => pyVarEq w v) then c
                    else { c with «variables» := c.variables ++ [v] }
                | _ => c
      .ok (c1, e :: stack, [])
  | .inr s =>
      if cyOperators.contains s then
        if s == "u-" then
          match stack with
          | r :: rest =>
              match c.perform s (.pystr "") r with
              | .ok (c1, ws) => .ok (c1, CyLPExpr.node s (.pystr "") r :: rest, ws)
              | .error e => .error e
          | [] => .error .indexError
        else
          match stack with
          | r :: l :: rest =>
              match c.perform s l r with
              | .ok (c1, ws) => .ok (c1, CyLPExpr.node s l r :: rest, ws)
              | .error e => .error e
          | _ => .error .indexError
      else .ok (c, .pystr s :: stack, [])

/-- The token replay loop of `evaluate`, threading the constraint accumulator,
the operand stack and the bound store (each step's in-place writes are applied
before the next token, in the original's order of effects). -/
def walkTokens : List Tok → CyLPConstraint → List CyLPExpr → BoundStore →
    Except PyErr (CyLPConstraint × List CyLPExpr × BoundStore)
  | [], c, stack, st => .ok (c, stack, st)
  | t :: ts, c, stack, st =>
      match stepTok c stack t with
      | .error e => .error e
      | .ok (c1, stack1, ws) =>
          match applyWrites st ws with
          | .error e => .error e
          | .ok st1 => walkTokens ts c1 stack1 st1

/-- `CyLPExpr.evaluate`: replay the postfix tokens, give a leftover naked
variable an all-ones coefficient, then reset the `expr` pointer of every
variable keyed in `varCoefs` (and only those). -/
def CyLPExpr.evaluate (e : CyLPExpr) (st : BoundStore) (fl : FlagStore) :
    Except PyErr (CyLPConstraint × BoundStore × FlagStore) :=
  match walkTokens e.getPostfix CyLPConstraint.init [] st with
  | .error err => .error err
  | .ok (c, stack, st1) =>
      let c1 := match stack with
                | [CyLPExpr.var v] =>
                    { c with varCoefs := setCoef c.varCoefs v (.vec (List.replicate v.dim 1)) }
                | _ => c
      let fl1 := (c1.varCoefs.map (fun p => p.1.vid)).foldl
                   (fun f vid => flagSet f vid true) fl
      .ok (c1, st1, fl1)

/-- `CyLPExpr.__ge__`: builds `CyLPExpr('>=', left=self.expr, right=other)` and
repoints `self.expr` at the new node.  The caller passes the current value of
`self.expr` as `self`; when `self` is a variable its expr-points-to-self flag
becomes false. -/
def CyLPExpr.opGe (self other : CyLPExpr) (fl : FlagStore) : CyLPExpr × FlagStore :=
  (.node ">=" self other,
   match self with
   | .var v => flagSet fl v.vid false
   | _ => fl)

/-- `CyLPExpr.__le__`, as `CyLPExpr.opGe`. -/
def CyLPExpr.opLe (self other : CyLPExpr) (fl : FlagStore) : CyLPExpr × FlagStore :=
  (.node "<=" self other,
   match self with
   | .var v => flagSet fl v.vid false
   | _ => fl)

/-- The binary special methods relevant to `CyLPArray`. -/
inductive ArrBinOp where
  | le | ge | eq | add | radd | sub | rsub | mul | rmul
deriving Repr, DecidableEq

/-- Which of those methods the `CyLPArray` class overrides (source lines
436–474): `__le__`, `__ge__`, `__mul__`, `__rmul__`, `__add__`, `__radd__`,
`__rsub__`, `__sub__` — and nothing else; in particular no `__eq__`. -/
def cyLPArrayOverridden : ArrBinOp → Bool
  | .eq => false
  | _ => true

/-- Where a binary operation on a `CyLPArray` is handled: `notImplemented`
means the overridden method returns `NotImplemented`, yielding to the other
operand; `base` means the underlying `np.ndarray` implementation handles it
as an ordinary numeric vector operation. -/
inductive ArrDispatch where
  | notImplemented | base
deriving Repr, DecidableEq

/-- The dispatch a `CyLPArray` `a` performs for operation `op` with the other
operand `other`: each overridden method returns `NotImplemented` exactly when
`issubclass(other.__class__, CyLPExpr)`; a non-overridden method or a
non-symbolic operand falls through to the `np.ndarray` base behavior. -/
def CyLPArray.dispatch (_a : List ℚ) (op : ArrBinOp) (other : CyLPExpr) : ArrDispatch :=
  if cyLPArrayOverridden op && isCyExprVal other then .notImplemented else .base

/-- `IndexFactory`: name → assigned index list for variables and constraints,
plus the two running cursors. -/
structure IndexFactory where
  varIndex : List (String × List Nat)
  constIndex : List (String × List Nat)
  currentVarIndex : Nat
  currentConstIndex : Nat
deriving Repr, DecidableEq

def IndexFactory.init : IndexFactory :=
  { varIndex := [], constIndex := [], currentVarIndex := 0, currentConstIndex := 0 }

/-- The shared body of `addVar`/`addConst`: append `range(cur, cur + n)` to an
existing name's list, or bind the name to that range. -/
def idxExtend (idx : List (String × List Nat)) (cur : Nat) (name : String) (n : Nat) :
    List (String × List Nat) :=
  if idx.any (fun p => p.1 == name) then
    idx.map (fun p => if p.1 == name then (p.1, p.2 ++ List.range' cur n) else p)
  else idx ++ [(name, List.range' cur n)]

/-- `IndexFactory.addVar`: a zero count is a no-op; otherwise assign the next
`n` indices to `name` (extending its list if present) and advance the cursor. -/
def IndexFactory.addVar (f : IndexFactory) (name : String) (n : Nat) : IndexFactory :=
  if n = 0 then f
  else { f with varIndex := idxExtend f.varIndex f.currentVarIndex name n,
                currentVarIndex := f.currentVarIndex + n }

def IndexFactory.hasVar (f : IndexFactory) (name : String) : Bool :=
  f.varIndex.any (fun p => p.1 == name)

/-- `IndexFactory.addConst`, same shape as `addVar` on the constraint side. -/
def IndexFactory.addConst (f : IndexFactory) (name : String) (n : Nat) : IndexFactory :=
  if n = 0 then f
  else { f with constIndex := idxExtend f.constIndex f.currentConstIndex name n,
                currentConstIndex := f.currentConstIndex + n }

def IndexFactory.hasConst (f : IndexFactory) (name : String) : Bool :=
  f.constIndex.any (fun p => p.1 == name)

/-- `varIndex[name]` / `constIndex[name]`: dict lookup of an assigned index
list. -/
def idxGet (idx : List (String × List Nat)) (name : String) : Option (List Nat) :=
  (List.find? (fun p => p.1 == name) idx).map (fun p => p.2)

/-- The (index list, cursor) core of one `addVar`/`addConst` call, shared by
the two namespaces. -/
def idxStep (s : List (String × List Nat) × Nat) (p : String × Nat) :
    List (String × List Nat) × Nat :=
  if p.2 = 0 then s else (idxExtend s.1 s.2 p.1 p.2, s.2 + p.2)

/-- A sequence of `addVar` calls applied to a fresh factory. -/
def applyAddVarCalls (calls : List (String × Nat)) : IndexFactory :=
  calls.foldl (fun f p => f.addVar p.1 p.2) IndexFactory.init

/-- A sequence of `addConst` calls applied to a fresh factory. -/
def applyAddConstCalls (calls : List (String × Nat)) : IndexFactory :=
  calls.foldl (fun f p => f.addConst p.1 p.2) IndexFactory.init

/-- Modelled from the spec: `sparseConcat` lives in `CyLP.py.utils.sparseUtil`,
which is not part of the sources under review.  Per the spec's assembly
description (§4.5: per-constraint fragments are stacked vertically, block
columns horizontally; §6: a concatenation primitive supporting horizontal and
vertical block-stacking), concatenation onto an empty (`None`) accumulator
yields the other fragment, `'v'` stacks rows, `'h'` joins the rows of equally
tall blocks. -/
def sparseConcat (a : Option (List (List ℚ))) (b : List (List ℚ)) (dir : String) :
    Option (List (List ℚ)) :=
  match a with
  | none => some b
  | some m => some (if dir == "v" then m ++ b else List.zipWith (fun r s => r ++ s) m b)

/-- `CyLPModel` state: variables and constraints in insertion order, the
assembly caches (`allVarNames`, `allParentVarDims`, `nRows`) written by
`makeIndexFactory`, the index factory, and — per the modeling conventions —
the bound store, the expr-flag store and the fresh-id counter. -/
structure CyLPModel where
  «variables» : List CyLPVar
  constraints : List CyLPConstraint
  allVarNames : List String
  allParentVarDims : List (String × Nat)
  nRows : Nat
  inds : IndexFactory
  store : BoundStore
  flags : FlagStore
  nextVid : Nat
deriving Repr, DecidableEq

def CyLPModel.init : CyLPModel :=
  { «variables» := [], constraints := [], allVarNames := [], allParentVarDims := [],
    nRows := 0, inds := IndexFactory.init, store := [], flags := [], nextVid := 0 }

/-- `CyLPModel.addVariable(name, dim)`: create a fresh whole variable (bounds
`±getCoinInfinity`, `expr` pointing to itself) and append it. -/
def CyLPModel.addVariable (m : CyLPModel) (name : String) (dim : Nat) :
    CyLPVar × CyLPModel :=
  let v : CyLPVar :=
    { vid := m.nextVid, name := name, dim := dim, parentDim := dim,
      parent := none, indices := none, fromInd := none, toInd := none }
  (v, { m with «variables» := m.variables ++ [v],
               store := m.store ++ [(m.nextVid,
                 (List.replicate dim (-getCoinInfinity), List.replicate dim getCoinInfinity))],
               flags := m.flags ++ [(m.nextVid, true)],
               nextVid := m.nextVid + 1 })

/-- `CyLPVar.__getitem__` with an `int` key: a fresh 1-dimensional view with
`indices = [k]`, `parentDim = self.dim`, `parent = self` (its own unused bound
arrays get a store entry, as `CyLPVar.__init__` creates them). -/
def CyLPVar.getItemInt (v : CyLPVar) (k : Nat) (m : CyLPModel) : CyLPVar × CyLPModel :=
  let nv : CyLPVar :=
    { vid := m.nextVid, name := v.name, dim := 1, parentDim := v.dim,
      parent := some v.vid, indices := some [k], fromInd := none, toInd := none }
  (nv, { m with store := m.store ++ [(m.nextVid,
                  (List.replicate 1 (-getCoinInfinity), List.replicate 1 getCoinInfinity))],
                flags := m.flags ++ [(m.nextVid, true)],
                nextVid := m.nextVid + 1 })

/-- `CyLPVar.__getitem__` with a slice `start:stop`: the stop is silently
clamped to `self.dim`, `indices = arange(start, stop')`, `fromInd`/`toInd`
recorded, `parentDim = self.dim`, `parent = self`. -/
def CyLPVar.getItemSlice (v : CyLPVar) (start stop : Nat) (m : CyLPModel) :
    CyLPVar × CyLPModel :=
  let stop2 := if v.dim < stop then v.dim else stop
  let ids := List.range' start (stop2 - start)
  let nv : CyLPVar :=
    { vid := m.nextVid, name := v.name, dim := ids.length, parentDim := v.dim,
      parent := some v.vid, indices := some ids, fromInd := some start, toInd := some stop2 }
  (nv, { m with store := m.store ++ [(m.nextVid,
                  (List.replicate ids.length (-getCoinInfinity),
                   List.replicate ids.length getCoinInfinity))],
                flags := m.flags ++ [(m.nextVid, true)],
                nextVid := m.nextVid + 1 })

/-- The `allVarNames` computation of `makeIndexFactory`: walk constraints in
insertion order and, inside each, the model's variable list, collecting each
constraint's referenced block names that match some model variable and are not
yet present. -/
def allVarNamesCalc (vars : List CyLPVar) (cs : List CyLPConstraint) : List String :=
  cs.foldl (fun acc c =>
    vars.foldl (fun a2 v =>
      a2 ++ c.varNames.filter (fun nm => !a2.contains nm && nm == v.name)) acc) []

/-- The segment of block names a single constraint (with referenced names
`cnames`) contributes on top of an already collected prefix `acc`: its
referenced, not-yet-seen names, in the order of the model's variable list
(creation order). -/
def newBlockNames (vars : List CyLPVar) (cnames acc : List String) : List String :=
  vars.foldl (fun a2 v =>
    a2 ++ cnames.filter (fun nm => !(acc ++ a2).contains nm && nm == v.name)) []

/-- `CyLPModel.makeIndexFactory`: collect the referenced block names
(`allVarNamesCalc`); merge each constraint's `parentVarDims`; total the row
counts (`None` would make the `+=` die, modeled as `typeError`); then register
every collected name with the index factory. -/
def CyLPModel.makeIndexFactory (m : CyLPModel) : Except PyErr CyLPModel :=
  let avn := allVarNamesCalc m.variables m.constraints
  let apvd := m.constraints.foldl (fun d c =>
      c.parentVarDims.foldl (fun d2 p => dictSet d2 p.1 p.2) d) []
  match m.constraints.foldlM (fun acc c =>
      match c.nRows with
      | none => Except.error PyErr.typeError
      | some k => Except.ok (acc + k)) 0 with
  | .error e => .error e
  | .ok nTot =>
      match avn.foldlM (fun f nm =>
          if f.hasVar nm then Except.ok f
          else match dictGet apvd nm with
               | some d => Except.ok (f.addVar nm d)
               | none => Except.error PyErr.keyError) m.inds with
      | .error e => .error e
      | .ok inds2 =>
          .ok { m with allVarNames := avn, allParentVarDims := apvd,
                       nRows := nTot, inds := inds2 }

/-- A recorded coefficient as a matrix block (a 1-D array is one row), the
shape `sparseConcat` stacks. -/
def Coef.toMat : Coef → List (List ℚ)
  | .vec a => [a]
  | .mat m => m

/-- `CyLPModel.generateVarMatrix(varName)`: per constraint in order — a zero
block of shape `(nRows, parentDim)` when the block is absent; for a one-row
constraint a zero row accumulating each occurrence's coefficients at its slice
positions (`coef[var.indices] += ...`, which needs a 1-D coefficient); otherwise
the occurrences' coefficient blocks stacked vertically, with no placement at
slice positions — then everything stacked vertically. -/
def CyLPModel.generateVarMatrix (m : CyLPModel) (varName : String) :
    Except PyErr (Option (List (List ℚ))) :=
  match dictGet m.allParentVarDims varName with
  | none => .error .keyError
  | some dim =>
      m.constraints.foldlM (fun acc c =>
        let keys := (c.varCoefs.filter (fun p => p.1.name == varName)).map (fun p => p.1)
        match (if keys.isEmpty then
                 match c.nRows with
                 | some k => Except.ok (List.replicate k (List.replicate dim (0 : ℚ)))
                 | none => Except.error PyErr.typeError
               else if c.nRows == some 1 then
                 match keys.foldlM (fun r k =>
                     match getCoef c.varCoefs k with
                     | some (.vec a) => npFancyAdd r k.indices a
                     | some (.mat _) => Except.error PyErr.shapeMismatch
                     | none => Except.error PyErr.keyError)
                   (List.replicate dim (0 : ℚ)) with
                 | .ok row => Except.ok [row]
                 | .error e => Except.error e
               else
                 match keys with
                 | [] => Except.error PyErr.keyError
                 | k0 :: rest =>
                     match getCoef c.varCoefs k0 with
                     | none => Except.error PyErr.keyError
                     | some c0 =>
                         rest.foldlM (fun mm k =>
                             match getCoef c.varCoefs k with
                             | some ck => Except.ok (mm ++ ck.toMat)
                             | none => Except.error PyErr.keyError) c0.toMat) with
        | .ok coef => Except.ok (sparseConcat acc coef "v")
        | .error e => Except.error e) none

/-- `CyLPModel.makeMatrices`: refresh the index caches, build every block's
column matrix and join them, then concatenate the non-range constraints' bound
pairs and the variables' bound pairs.  Returns the updated model with the
assembled pieces. -/
def CyLPModel.makeMatrices (m : CyLPModel) :
    Except PyErr (CyLPModel × Option (List (List ℚ)) × List ℚ × List ℚ × List ℚ × List ℚ) :=
  match m.makeIndexFactory with
  | .error e => .error e
  | .ok m1 =>
      match m1.allVarNames.foldlM (fun acc nm =>
          match m1.generateVarMatrix nm with
          | .ok (some mm) => Except.ok (sparseConcat acc mm "h")
          | .ok none => Except.ok acc
          | .error e => Except.error e) none with
      | .error e => .error e
      | .ok master =>
          match m1.constraints.foldlM (fun acc c =>
              if !c.isRange then
                match c.lower with
                | some l => Except.ok (acc ++ l)
                | none => Except.error PyErr.typeError
              else Except.ok acc) ([] : List ℚ) with
          | .error e => .error e
          | .ok cl =>
              match m1.constraints.foldlM (fun acc c =>
                  if !c.isRange then
                    match c.upper with
                    | some u => Except.ok (acc ++ u)
                    | none => Except.error PyErr.typeError
                  else Except.ok acc) ([] : List ℚ) with
              | .error e => .error e
              | .ok cu =>
                  match m1.variables.foldlM (fun acc v =>
                      match storeLookup m1.store v.vid with
                      | some b => Except.ok (acc ++ b.1)
                      | none => Except.error PyErr.keyError) ([] : List ℚ) with
                  | .error e => .error e
                  | .ok vl =>
                      match m1.variables.foldlM (fun acc v =>
                          match storeLookup m1.store v.vid with
                          | some b => Except.ok (acc ++ b.2)
                          | none => Except.error PyErr.keyError) ([] : List ℚ) with
                      | .error e => .error e
                      | .ok vu => .ok (m1, master, cl, cu, vl, vu)

/-- `CyLPModel.addConstraint(cons)`: evaluate the expression; a range result
only mutates variable bounds and is discarded, a proper constraint is appended
— via a second `cons.evaluate()` call, exactly as the source does — and the
matrices are rebuilt. -/
def CyLPModel.addConstraint (m : CyLPModel) (cons : CyLPExpr) : Except PyErr CyLPModel :=
  match cons.evaluate m.store m.flags with
  | .error e => .error e
  | .ok (c, st1, fl1) =>
      let next : Except PyErr CyLPModel :=
        if !c.isRange then
          match cons.evaluate st1 fl1 with
          | .error e => .error e
          | .ok (c2, st2, fl2) =>
              .ok { m with constraints := m.constraints ++ [c2], store := st2, flags := fl2 }
        else .ok { m with store := st1, flags := fl1 }
      match next with
      | .error e => .error e
      | .ok m1 =>
          match m1.makeMatrices with
          | .error e => .error e
          | .ok (m2, _, _, _, _, _) => .ok m2

/-- A fresh copy of a variable: identical attributes (name, dimensions, slice
data), new object identity.  `f` maps each original object id to its copy's
id; the `parent` pointer of a slice follows its parent's copy. -/
def renVar (f : Nat → Nat) (v : CyLPVar) : CyLPVar :=
  { v with vid := f v.vid, parent := v.parent.map f }

/-- The same expression tree rebuilt over fresh copies of its variables. -/
def renExpr (f : Nat → Nat) : CyLPExpr → CyLPExpr
  | .var v => .var (renVar f v)
  | .node o l r => .node o (renExpr f l) (renExpr f r)
  | e => e

/-- A coefficient dict over the fresh copies. -/
def renCoefs (f : Nat → Nat) (l : List (CyLPVar × Coef)) : List (CyLPVar × Coef) :=
  l.map (fun p => (renVar f p.1, p.2))

/-- Constraint state over the fresh copies. -/
def renCons (f : Nat → Nat) (c : CyLPConstraint) : CyLPConstraint :=
  { c with varCoefs := renCoefs f c.varCoefs,
           «variables» := c.variables.map (renVar f) }

/-- A pending bound write retargeted at the fresh copies. -/
def renWrite (f : Nat → Nat) (w : BoundWrite) : BoundWrite :=
  { w with targetVid := f w.targetVid }

/-- A postfix token over the fresh copies. -/
def renTok (f : Nat → Nat) : Tok → Tok
  | .inl e => .inl (renExpr f e)
  | .inr s => .inr s

/-! ## Theorems -/

/-- Helper: on a comparison operator the first `perform` block only runs the
varName prologue of a variable right operand. -/
theorem performBlock1_cmp (k : OpKind) (l r : CyLPExpr) (c : CyLPConstraint)
    (hk : k = .cmpLe ∨ k = .cmpGe ∨ k = .cmpEq) :
    ∃ c2, performBlock1 k l r c = .ok c2 := by
  rcases hk with h | h | h <;> subst h <;> cases r <;> exact ⟨_, rfl⟩

/-- Helper: on a comparison operator the second block is the identity. -/
theorem performBlock2_cmp (k : OpKind) (l : CyLPExpr) (c : CyLPConstraint)
    (hk : k = .cmpLe ∨ k = .cmpGe ∨ k = .cmpEq) :
    performBlock2 k l c = c := by
  rcases hk with h | h | h <;> subst h <;> cases l <;> rfl

/-- Helper: on a comparison operator the third block is the identity. -/
theorem performBlock3_cmp (k : OpKind) (r : CyLPExpr) (c : CyLPConstraint)
    (hk : k = .cmpLe ∨ k = .cmpGe ∨ k = .cmpEq) :
    performBlock3 k r c = .ok c := by
  rcases hk with h | h | h <;> subst h <;> cases r <;> rfl

/-- Helper: the comparison block never produces the comparison error when
exactly one side is symbolic. -/
theorem performBlock4_ne_comparison (k : OpKind) (l r : CyLPExpr) (c : CyLPConstraint)
    (h : isCyExprVal l ≠ isCyExprVal r) :
    performBlock4 k l r c ≠ .error .comparisonError := by
  unfold performBlock4
  by_cases hc : isCmp k
  · have hcond : (isCyExprVal l && !isCyExprVal r || isCyExprVal r && !isCyExprVal l) = true := by
      cases hL : isCyExprVal l <;> cases hR : isCyExprVal r <;> simp_all
    simp only [hc, hcond, if_true]
    intro hcontra
    split at hcontra
    · rename_i e heq
      split at heq
      · split at heq <;> simp_all
      · split at heq <;> simp_all
    · split at hcontra
      · rename_i e2 heq2
        split at heq2 <;> try split at heq2 <;> simp_all
        simp_all
      · split at hcontra
        · split at hcontra <;> simp_all
        · simp_all
  · simp [hc]

/-- C4: evaluating a comparison (`<=`, `>=`, `==`) whose two sides are both
constant or both symbolic raises the comparison error, aborting the
constraint's evaluation (shown both at the `perform` level, for any
accumulator state, and for `evaluate` on the two-constant tree `2 <= 3`); a
comparison with exactly one symbolic side never raises it. -/
theorem comparison_sides_error (opr : String) (l r : CyLPExpr) (c : CyLPConstraint)
    (hop : opr ∈ cyComparisonOps) :
    (isCyExprVal l = isCyExprVal r →
        c.perform opr l r = .error .comparisonError) ∧
    (isCyExprVal l ≠ isCyExprVal r →
        c.perform opr l r ≠ .error .comparisonError) ∧
    (CyLPExpr.node "<=" (.num 2) (.num 3)).evaluate [] [] = .error .comparisonError := by
  have hk : decodeOp opr = .cmpLe ∨ decodeOp opr = .cmpGe ∨ decodeOp opr = .cmpEq := by
    simp only [cyComparisonOps, List.mem_cons, List.not_mem_nil, or_false] at hop
    rcases hop with h | h | h <;> subst h <;> simp [decodeOp]
  obtain ⟨c1, h1⟩ := performBlock1_cmp (decodeOp opr) l r c hk
  refine ⟨?_, ?_, by rfl⟩
  · intro hsym
    simp only [CyLPConstraint.perform, h1]
    rw [performBlock2_cmp _ _ _ hk, performBlock3_cmp _ _ _ hk]
    have hC : isCmp (decodeOp opr) = true := by
      rcases hk with h | h | h <;> rw [h] <;> rfl
    have hcond : (isCyExprVal l && !isCyExprVal r || isCyExprVal r && !isCyExprVal l) = false := by
      cases hL : isCyExprVal l <;> cases hR : isCyExprVal r <;> simp_all
    unfold performBlock4
    simp only [hC, hcond, if_true, if_false, Bool.false_eq_true]
  · intro hsym
    simp only [CyLPConstraint.perform, h1]
    rw [performBlock2_cmp _ _ _ hk, performBlock3_cmp _ _ _ hk]
    exact performBlock4_ne_comparison _ _ _ _ hsym

/-- Witness for `comparison_sides_error` at `opr = "<="`, `l = 2`, `r = 3`,
`c = CyLPConstraint.init`. -/
theorem comparison_sides_error_witness :
    ("<=" ∈ cyOperators → True) ∧
    CyLPConstraint.init.perform "<=" (.num 2) (.num 3) = .error .comparisonError := by
  refine ⟨fun _ => trivial, ?_⟩
  exact (comparison_sides_error "<=" (.num 2) (.num 3) CyLPConstraint.init
    (by decide)).1 (by rfl)

@[simp] theorem addVarName_nRows (c : CyLPConstraint) (v : CyLPVar) :
    (addVarName c v).nRows = c.nRows := by
  unfold addVarName; split <;> rfl

@[simp] theorem addVarName_isRange (c : CyLPConstraint) (v : CyLPVar) :
    (addVarName c v).isRange = c.isRange := by
  unfold addVarName; split <;> rfl

@[simp] theorem addVarName_varCoefs (c : CyLPConstraint) (v : CyLPVar) :
    (addVarName c v).varCoefs = c.varCoefs := by
  unfold addVarName; split <;> rfl

@[simp] theorem addVarName_variables (c : CyLPConstraint) (v : CyLPVar) :
    (addVarName c v).variables = c.variables := by
  unfold addVarName; split <;> rfl

@[simp] theorem addVarName_lower (c : CyLPConstraint) (v : CyLPVar) :
    (addVarName c v).lower = c.lower := by
  unfold addVarName; split <;> rfl

@[simp] theorem addVarName_upper (c : CyLPConstraint) (v : CyLPVar) :
    (addVarName c v).upper = c.upper := by
  unfold addVarName; split <;> rfl

/-- C5: `perform` on `*` with a vector or matrix left operand and a variable
right operand: a dimension error when the coefficient's column count (last-axis
length) differs from the variable's `dim`; a row-count error when the
coefficient's row count (1 for a 1-D array, the number of rows for a matrix)
conflicts with an already-established (truthy, per the source's `if
self.nRows and ...`) row count; otherwise the coefficient is recorded for the
variable and `nRows` becomes the coefficient's outer dimension. -/
theorem mult_coef_checks (c : CyLPConstraint) (v : CyLPVar) (a : List ℚ)
    (mm : List (List ℚ)) :
    (v.dim ≠ a.length →
        c.perform "*" (.arr a) (.var v) = .error .dimensionMismatch) ∧
    (v.dim ≠ matCols mm →
        c.perform "*" (.matx mm) (.var v) = .error .dimensionMismatch) ∧
    (∀ n, v.dim = a.length → c.nRows = some n → n ≠ 0 → n ≠ 1 →
        c.perform "*" (.arr a) (.var v) = .error .rowConflict) ∧
    (∀ n, v.dim = matCols mm → c.nRows = some n → n ≠ 0 → n ≠ mm.length →
        c.perform "*" (.matx mm) (.var v) = .error .rowConflict) ∧
    (v.dim = a.length → (npTruthy c.nRows = false ∨ c.nRows = some 1) →
        c.perform "*" (.arr a) (.var v) =
          .ok ({ addVarName c v with
                   varCoefs := setCoef (addVarName c v).varCoefs v (.vec a),
                   nRows := some 1, isRange := false }, [])) ∧
    (v.dim = matCols mm → (npTruthy c.nRows = false ∨ c.nRows = some mm.length) →
        c.perform "*" (.matx mm) (.var v) =
          .ok ({ addVarName c v with
                   varCoefs := setCoef (addVarName c v).varCoefs v (.mat mm),
                   nRows := some mm.length, isRange := false }, [])) := by
  have hdec : decodeOp "*" = OpKind.mult := rfl
  refine ⟨?_, ?_, ?_, ?_, ?_, ?_⟩
  · intro h
    simp only [CyLPConstraint.perform, hdec, performBlock1, addVarName_nRows]
    simp [h]
  · intro h
    simp only [CyLPConstraint.perform, hdec, performBlock1, addVarName_nRows]
    simp [h]
  · intro n h hn h0 h1
    simp only [CyLPConstraint.perform, hdec, performBlock1, addVarName_nRows, hn]
    simp [h, npTruthy, h0, h1]
  · intro n h hn h0 h1
    simp only [CyLPConstraint.perform, hdec, performBlock1, addVarName_nRows, hn]
    simp [h, npTruthy, h0, h1]
  · intro h hn
    simp only [CyLPConstraint.perform, hdec, performBlock1, addVarName_nRows]
    have hcond : (npTruthy c.nRows && c.nRows != some 1) = false := by
      rcases hn with h2 | h2 <;> simp [h2]
    simp [h, hcond, performBlock2, performBlock3, performBlock4, isCmp]
  · intro h hn
    simp only [CyLPConstraint.perform, hdec, performBlock1, addVarName_nRows]
    have hcond : (npTruthy c.nRows && c.nRows != some mm.length) = false := by
      rcases hn with h2 | h2 <;> simp [h2]
    simp [h, hcond, performBlock2, performBlock3, performBlock4, isCmp]

/-- Witness for `mult_coef_checks`: a 2-dimensional whole variable with a
too-short vector coefficient errs; with a fitting vector it records the
coefficient and one row. -/
theorem mult_coef_checks_witness :
    CyLPConstraint.init.perform "*" (.arr [5])
        (.var (CyLPVar.mk 0 "x" 2 2 none none none none)) = .error .dimensionMismatch ∧
    CyLPConstraint.init.perform "*" (.arr [5, 6])
        (.var (CyLPVar.mk 0 "x" 2 2 none none none none)) =
      .ok ({ addVarName CyLPConstraint.init (CyLPVar.mk 0 "x" 2 2 none none none none) with
               varCoefs := setCoef (addVarName CyLPConstraint.init
                   (CyLPVar.mk 0 "x" 2 2 none none none none)).varCoefs
                 (CyLPVar.mk 0 "x" 2 2 none none none none) (.vec [5, 6]),
               nRows := some 1, isRange := false }, []) := by
  constructor
  · exact (mult_coef_checks CyLPConstraint.init
      (CyLPVar.mk 0 "x" 2 2 none none none none) [5] []).1 (by decide)
  · exact (mult_coef_checks CyLPConstraint.init
      (CyLPVar.mk 0 "x" 2 2 none none none none) [5, 6] []).2.2.2.2.1
      (by decide) (Or.inl (by decide))

/-- C9 counterexample: `a == x` with `a` a `CyLPArray` and `x` a variable is
*not* deferred to the expression side — the class overrides no `__eq__`, so the
operation falls through to the `np.ndarray` base behavior instead of returning
`NotImplemented`, contradicting the claim that every comparison defers. -/
theorem cyArray_eq_not_deferred :
    CyLPArray.dispatch [1] .eq (.var (CyLPVar.mk 0 "x" 1 1 none none none none)) = .base ∧
    ArrDispatch.base ≠ ArrDispatch.notImplemented :=
  ⟨rfl, by decide⟩

/-- C9 (amended): every binary method the `CyLPArray` class overrides —
`<=`, `>=`, `+`, `-`, `*` and their reverse forms — returns `NotImplemented`
exactly when the other operand is symbolic, deferring the operation to the
symbolic side; `==` is not overridden and always falls through to the base
array behavior; with a non-symbolic operand every operation behaves as an
ordinary numeric vector operation (base behavior). -/
theorem cyArray_dispatch_defers (a : List ℚ) (op : ArrBinOp) (e : CyLPExpr) :
    (op ≠ .eq → isCyExprVal e = true →
        CyLPArray.dispatch a op e = .notImplemented) ∧
    CyLPArray.dispatch a .eq e = .base ∧
    (isCyExprVal e = false → CyLPArray.dispatch a op e = .base) := by
  refine ⟨?_, ?_, ?_⟩
  · intro hne hsym
    have hov : cyLPArrayOverridden op = true := by
      cases op <;> first | rfl | exact absurd rfl hne
    simp [CyLPArray.dispatch, hov, hsym]
  · simp [CyLPArray.dispatch, cyLPArrayOverridden]
  · intro hsym
    simp [CyLPArray.dispatch, hsym]

/-- Witness for `cyArray_dispatch_defers` at `op = .le`, a symbolic operand. -/
theorem cyArray_dispatch_defers_witness :
    ArrBinOp.le ≠ ArrBinOp.eq ∧
    isCyExprVal (.var (CyLPVar.mk 0 "x" 1 1 none none none none)) = true ∧
    CyLPArray.dispatch [1] .le (.var (CyLPVar.mk 0 "x" 1 1 none none none none)) =
      .notImplemented :=
  ⟨by decide, rfl,
   (cyArray_dispatch_defers [1] .le (.var (CyLPVar.mk 0 "x" 1 1 none none none none))).1
     (by decide) rfl⟩

/-- C2: the module docstring's own range constraint
`model.addConstraint(1.1 <= x[1:3] <= CyLPArray([2.0, 3.5]))` on a fresh
3-dimensional `x` (the chained Python comparison first calls `x[1:3].__ge__(1.1)`
— building the node `(x[1:3] >= 1.1)` and repointing the slice's `expr` — and
then `__le__` with that node as `left`).  Evaluating it aborts with a numpy
broadcast error: in range mode `perform` builds the scalar bound at length
`parentDim` (3) but assigns it to the slice's 2 index positions of the parent's
`lower` array without re-slicing (`bound`, not `bound[var.indices]`).  The
bounds the docstring promises are never written. -/
theorem range_slice_scalar_bound_error :
    (let xm := CyLPModel.init.addVariable "x" 3
     let sm := xm.1.getItemSlice 1 3 xm.2
     let b1 := CyLPExpr.opGe (.var sm.1) (.num (11 / 10)) sm.2.flags
     let b2 := CyLPExpr.opLe b1.1 (.arr [2, 7 / 2]) b1.2
     { sm.2 with flags := b2.2 }.addConstraint b2.1) = .error .shapeMismatch := by
  rfl

/-- C10: comparing a bare, unsliced, freshly added variable with a scalar (`v >= q`
or `v <= q`, built by the overloaded comparison) keeps the constraint a range:
evaluation succeeds with `isRange` true, no coefficient recorded and no
constraint-level bound vectors; `addConstraint` leaves `model.constraints`
empty and writes the scalar across the variable's own `lower` (for `>=`) or
`upper` (for `<=`) array, leaving the other side at the `±getCoinInfinity`
sentinel. -/
theorem naked_var_scalar_range (nm : String) (d : Nat) (q : ℚ) :
    (let xm := CyLPModel.init.addVariable nm d
     let bg := CyLPExpr.opGe (.var xm.1) (.num q) xm.2.flags
     (CyLPExpr.evaluate bg.1 xm.2.store bg.2).map
        (fun r => (r.1.isRange, r.1.varCoefs, r.1.lower, r.1.upper)) =
       .ok (true, [], none, none) ∧
     ({ xm.2 with flags := bg.2 }.addConstraint bg.1).map
        (fun (m2 : CyLPModel) => (m2.constraints, storeLookup m2.store xm.1.vid)) =
       .ok ([], some (List.replicate d q, List.replicate d getCoinInfinity))) ∧
    (let xm := CyLPModel.init.addVariable nm d
     let bl := CyLPExpr.opLe (.var xm.1) (.num q) xm.2.flags
     (CyLPExpr.evaluate bl.1 xm.2.store bl.2).map
        (fun r => (r.1.isRange, r.1.varCoefs, r.1.lower, r.1.upper)) =
       .ok (true, [], none, none) ∧
     ({ xm.2 with flags := bl.2 }.addConstraint bl.1).map
        (fun (m2 : CyLPModel) => (m2.constraints, storeLookup m2.store xm.1.vid)) =
       .ok ([], some (List.replicate d (-getCoinInfinity), List.replicate d q))) := by
  refine ⟨⟨?_, ?_⟩, ⟨?_, ?_⟩⟩ <;>
    simp [CyLPExpr.evaluate, CyLPExpr.getPostfix, walkTokens, stepTok,
          CyLPConstraint.perform, performBlock1, performBlock2, performBlock3,
          performBlock4, decodeOp, isCmp, isCyExprVal, applyWrites, applyWrite,
          setBoundsAt, storeLookup, storeSet, CyLPModel.addVariable, CyLPModel.init,
          CyLPConstraint.init, cyOperators, flagSet, addVarName, CyLPExpr.opGe,
          CyLPExpr.opLe, CyLPModel.addConstraint, CyLPModel.makeMatrices,
          CyLPModel.makeIndexFactory, allVarNamesCalc, Except.map, List.foldlM_nil,
          List.foldlM_cons, bind, Except.bind, pure, Except.pure]

theorem find_map_set_self (fl : List (Nat × Bool)) (v : Nat) (b : Bool)
    (hany : fl.any (fun p => p.1 == v) = true) :
    ((fl.map (fun p => if p.1 == v then (p.1, b) else p)).find?
        (fun p => p.1 == v)).map (fun p => p.2) = some b := by
  induction fl with
  | nil => simp at hany
  | cons p t ih =>
      by_cases hp : (p.1 == v) = true
      · have h1 : p.1 = v := by simpa using hp
        simp [List.find?_cons, h1]
      · simp only [List.any_cons, hp, Bool.false_or] at hany
        simp only [List.map_cons, List.find?_cons, hp, if_false, Bool.false_eq_true]
        exact ih hany

theorem find_append_self (fl : List (Nat × Bool)) (v : Nat) (b : Bool)
    (hany : fl.any (fun p => p.1 == v) = false) :
    ((fl ++ [(v, b)]).find? (fun p => p.1 == v)).map (fun p => p.2) = some b := by
  induction fl with
  | nil => simp [List.find?_cons]
  | cons p t ih =>
      simp only [List.any_cons, Bool.or_eq_false_iff] at hany
      simp only [List.cons_append, List.find?_cons, hany.1, Bool.false_eq_true]
      exact ih hany.2

theorem find_map_set_other (fl : List (Nat × Bool)) (w v : Nat) (b : Bool)
    (hwv : v ≠ w) :
    ((fl.map (fun p => if p.1 == w then (p.1, b) else p)).find?
        (fun p => p.1 == v)).map (fun p => p.2) =
      (fl.find? (fun p => p.1 == v)).map (fun p => p.2) := by
  induction fl with
  | nil => rfl
  | cons p t ih =>
      have hhead : ((if (p.1 == w) = true then (p.1, b) else p).1) = p.1 := by
        split <;> rfl
      by_cases hpv : (p.1 == v) = true
      · have h1 : p.1 = v := by simpa using hpv
        have h2 : ¬ p.1 = w := by rw [h1]; exact hwv
        simp [List.find?_cons, h1, h2, hwv, hpv]
      · simp only [List.map_cons, List.find?_cons, hhead, hpv, Bool.false_eq_true]
        exact ih

theorem find_append_other (fl : List (Nat × Bool)) (w v : Nat) (b : Bool)
    (hwv : v ≠ w) :
    ((fl ++ [(w, b)]).find? (fun p => p.1 == v)).map (fun p => p.2) =
      (fl.find? (fun p => p.1 == v)).map (fun p => p.2) := by
  induction fl with
  | nil =>
      have : (w == v) = false := by simpa using fun h => hwv h.symm
      simp [List.find?_cons, this]
  | cons p t ih =>
      by_cases hpv : (p.1 == v) = true
      · simp [List.find?_cons, hpv]
      · simp only [List.cons_append, List.find?_cons, hpv, Bool.false_eq_true]
        exact ih

theorem flagLookup_set_self (fl : FlagStore) (v : Nat) (b : Bool) :
    flagLookup (flagSet fl v b) v = some b := by
  unfold flagSet flagLookup
  split
  · exact find_map_set_self fl v b (by assumption)
  · rename_i h
    have hfalse : fl.any (fun p => p.1 == v) = false := by
      cases hx : fl.any (fun p => p.1 == v)
      · rfl
      · exact absurd hx h
    exact find_append_self fl v b hfalse

theorem flagLookup_set_other (fl : FlagStore) (w v : Nat) (b : Bool) (h : v ≠ w) :
    flagLookup (flagSet fl w b) v = flagLookup fl v := by
  unfold flagSet flagLookup
  split
  · exact find_map_set_other fl w v b h
  · exact find_append_other fl w v b h

theorem foldl_flagSet_not_mem (vids : List Nat) (fl : FlagStore) (v : Nat)
    (hv : v ∉ vids) :
    flagLookup (vids.foldl (fun f vid => flagSet f vid true) fl) v = flagLookup fl v := by
  induction vids generalizing fl with
  | nil => rfl
  | cons w ws ih =>
      rw [List.foldl_cons, ih _ (fun h => hv (List.mem_cons_of_mem _ h))]
      exact flagLookup_set_other fl w v true (fun he => hv (he ▸ List.mem_cons_self _ _))

theorem foldl_flagSet_mem (vids : List Nat) (fl : FlagStore) (v : Nat)
    (hv : v ∈ vids) :
    flagLookup (vids.foldl (fun f vid => flagSet f vid true) fl) v = some true := by
  induction vids generalizing fl with
  | nil => cases hv
  | cons w ws ih =>
      by_cases h : v ∈ ws
      · exact ih _ h
      · have hvw : v = w := by
          rcases List.mem_cons.mp hv with h1 | h1
          · exact h1
          · exact absurd h1 h
        subst hvw
        rw [List.foldl_cons, foldl_flagSet_not_mem ws _ v h]
        exact flagLookup_set_self fl v true

/-- C8 counterexample: evaluating the range constraint `x >= 0` (a fresh
2-dimensional `x`; building the comparison repoints `x.expr` at the node)
succeeds, `x` was touched during the postfix walk (it is in
`cons.variables`), yet afterwards its `expr` pointer still does not point back
to itself: the reset loop only covers `varCoefs` keys, and a range
constraint's variable receives no coefficient.  This refutes the claim that
every touched variable is reset. -/
theorem range_var_expr_not_reset :
    (let xm := CyLPModel.init.addVariable "x" 2
     let bg := CyLPExpr.opGe (.var xm.1) (.num 0) xm.2.flags
     (CyLPExpr.evaluate bg.1 xm.2.store bg.2).map
        (fun r => (r.1.variables, flagLookup r.2.2 xm.1.vid)) =
       .ok ([xm.1], some false)) ∧ some false ≠ some true := by
  exact ⟨by rfl, by decide⟩

/-- C8 (amended): after `evaluate` returns on a constraint expression, every
variable that is a key of the resulting `varCoefs` — exactly the set the
closing reset loop iterates — has its `expr` pointer reset to itself; touched
variables without a recorded coefficient (those of range constraints) are not
reset. -/
theorem evaluate_resets_coef_vars (e : CyLPExpr) (st : BoundStore) (fl : FlagStore)
    (c : CyLPConstraint) (st2 : BoundStore) (fl2 : FlagStore)
    (h : e.evaluate st fl = .ok (c, st2, fl2)) :
    ∀ p ∈ c.varCoefs, flagLookup fl2 p.1.vid = some true := by
  intro p hp
  unfold CyLPExpr.evaluate at h
  split at h
  · exact absurd h (by simp)
  · rename_i c0 stack st1 heq
    simp only [Except.ok.injEq, Prod.mk.injEq] at h
    obtain ⟨hc, hst, hfl⟩ := h
    rw [← hfl]
    apply foldl_flagSet_mem
    apply List.mem_map_of_mem
    rw [← hc] at hp
    exact hp

/-- Witness for `evaluate_resets_coef_vars`: after evaluating `2 * x <= 3` on a
fresh 2-dimensional `x`, the variable keyed in `varCoefs` has its flag reset. -/
theorem evaluate_resets_coef_vars_witness :
    flagLookup [(0, true)] 0 = some true := by
  have h : CyLPExpr.evaluate
      (.node "<=" (.node "*" (.num 2) (.var ⟨0, "x", 2, 2, none, none, none, none⟩)) (.num 3))
      [(0, (List.replicate 2 (-getCoinInfinity), List.replicate 2 getCoinInfinity))]
      [(0, true)] =
      .ok ({ varNames := ["x"], parentVarDims := [("x", 2)],
             varCoefs := [(⟨0, "x", 2, 2, none, none, none, none⟩, Coef.vec [2, 2])],
             lower := some [-getCoinInfinity], upper := some [3], nRows := some 1,
             isRange := false,
             «variables» := [⟨0, "x", 2, 2, none, none, none, none⟩] },
           [(0, (List.replicate 2 (-getCoinInfinity), List.replicate 2 getCoinInfinity))],
           [(0, true)]) := by rfl
  exact evaluate_resets_coef_vars _ _ _ _ _ _ h
    (⟨0, "x", 2, 2, none, none, none, none⟩, Coef.vec [2, 2]) (by simp)

/-- C7 counterexample: variables `x` then `y` (creation order `["x", "y"]`);
first stored constraint references `y` and a foreign variable `w` (never added
to the model), second references `x`.  After assembly `allVarNames` is
`["y", "x"]`: the referenced name `"w"` is missing (so the list does not
contain exactly the referenced block names), and `x`, whose variable was
created before `y`'s, appears after it (so the order does not match creation
order). -/
theorem block_order_counterexample :
    (let xm := CyLPModel.init.addVariable "x" 1
     let ym := xm.2.addVariable "y" 1
     let w : CyLPVar := ⟨100, "w", 1, 1, none, none, none, none⟩
     let t1 : CyLPExpr := .node "<=" (.node "+" (.var w) (.var ym.1)) (.num 5)
     let t2 : CyLPExpr := .node "<=" (.node "*" (.num 2) (.var xm.1)) (.num 3)
     ((ym.2.addConstraint t1).bind (fun mm => mm.addConstraint t2)).map
       (fun (mm : CyLPModel) => (mm.allVarNames, mm.constraints.map (fun c => c.varNames),
                   mm.variables.map (fun v => v.name)))) =
      .ok (["y", "x"], [["y", "w"], ["x"]], ["x", "y"]) ∧
    ¬ ("w" ∈ (["y", "x"] : List String)) ∧ (["y", "x"] : List String) ≠ ["x", "y"] :=
  ⟨by rfl, by decide, by decide⟩

/-- Membership in the inner (per-constraint) fold of `allVarNamesCalc`. -/
theorem innerFold_mem (cnames : List String) (vars : List CyLPVar) (acc : List String)
    (n : String) :
    (n ∈ vars.foldl (fun a2 v =>
        a2 ++ cnames.filter (fun nm => !a2.contains nm && nm == v.name)) acc) ↔
      n ∈ acc ∨ (n ∈ cnames ∧ ∃ v ∈ vars, v.name = n) := by
  induction vars generalizing acc with
  | nil => simp
  | cons v vs ih =>
      rw [List.foldl_cons, ih]
      have hfil : (n ∈ acc ++ cnames.filter (fun nm => !acc.contains nm && nm == v.name)) ↔
          n ∈ acc ∨ (n ∈ cnames ∧ n ∉ acc ∧ v.name = n) := by
        rw [List.mem_append, List.mem_filter]
        constructor
        · rintro (h1 | ⟨hmem, hpred⟩)
          · exact Or.inl h1
          · rw [Bool.and_eq_true, Bool.not_eq_true', beq_iff_eq] at hpred
            refine Or.inr ⟨hmem, fun hin => ?_, hpred.2.symm⟩
            have hcontra : acc.contains n = true := List.elem_iff.mpr hin
            rw [hcontra] at hpred
            exact absurd hpred.1 (by simp)
        · rintro (h1 | ⟨hmem, hnin, hvn⟩)
          · exact Or.inl h1
          · refine Or.inr ⟨hmem, ?_⟩
            rw [Bool.and_eq_true, Bool.not_eq_true', beq_iff_eq]
            refine ⟨?_, hvn.symm⟩
            cases hc : acc.contains n
            · rfl
            · have hc2 : List.elem n acc = true := hc
              exact absurd (List.elem_iff.mp hc2) hnin
      rw [hfil]
      constructor
      · rintro ((h1 | ⟨hcn, _, hvn⟩) | ⟨hcn, v2, hv2, hvn⟩)
        · exact Or.inl h1
        · exact Or.inr ⟨hcn, v, List.mem_cons_self _ _, hvn⟩
        · exact Or.inr ⟨hcn, v2, List.mem_cons_of_mem _ hv2, hvn⟩
      · rintro (h1 | ⟨hcn, v2, hv2, hvn⟩)
        · exact Or.inl (Or.inl h1)
        · rcases List.mem_cons.mp hv2 with he | hm
          · subst he
            by_cases hacc : n ∈ acc
            · exact Or.inl (Or.inl hacc)
            · exact Or.inl (Or.inr ⟨hcn, hacc, hvn⟩)
          · exact Or.inr ⟨hcn, v2, hm, hvn⟩

/-- Membership in `allVarNamesCalc`: exactly the names referenced by some
constraint that also name a model variable. -/
theorem allVarNamesCalc_mem (vars : List CyLPVar) (cs : List CyLPConstraint)
    (n : String) :
    n ∈ allVarNamesCalc vars cs ↔
      (∃ c ∈ cs, n ∈ c.varNames) ∧ ∃ v ∈ vars, v.name = n := by
  unfold allVarNamesCalc
  have key : ∀ acc : List String, (n ∈ cs.foldl (fun acc c =>
        vars.foldl (fun a2 v =>
          a2 ++ c.varNames.filter (fun nm => !a2.contains nm && nm == v.name)) acc) acc) ↔
      n ∈ acc ∨ ((∃ c ∈ cs, n ∈ c.varNames) ∧ ∃ v ∈ vars, v.name = n) := by
    induction cs with
    | nil => simp
    | cons c cs2 ih =>
        intro acc
        rw [List.foldl_cons, ih, innerFold_mem]
        constructor
        · rintro ((h1 | ⟨hcn, hv⟩) | ⟨⟨c2, hc2, hn2⟩, hv⟩)
          · exact Or.inl h1
          · exact Or.inr ⟨⟨c, List.mem_cons_self _ _, hcn⟩, hv⟩
          · exact Or.inr ⟨⟨c2, List.mem_cons_of_mem _ hc2, hn2⟩, hv⟩
        · rintro (h1 | ⟨⟨c2, hc2, hn2⟩, hv⟩)
          · exact Or.inl (Or.inl h1)
          · rcases List.mem_cons.mp hc2 with he | hm
            · subst he; exact Or.inl (Or.inr ⟨hn2, hv⟩)
            · exact Or.inr ⟨⟨c2, hm, hn2⟩, hv⟩
  simpa using key []

/-- The inner fold starting from `acc` appends exactly `newBlockNames`. -/
theorem innerFold_as_append (cnames : List String) (vars : List CyLPVar)
    (acc : List String) :
    vars.foldl (fun a2 v =>
        a2 ++ cnames.filter (fun nm => !a2.contains nm && nm == v.name)) acc =
      acc ++ newBlockNames vars cnames acc := by
  unfold newBlockNames
  have key : ∀ l : List String,
      vars.foldl (fun a2 v =>
          a2 ++ cnames.filter (fun nm => !a2.contains nm && nm == v.name)) (acc ++ l) =
        acc ++ vars.foldl (fun a2 v =>
          a2 ++ cnames.filter (fun nm => !(acc ++ a2).contains nm && nm == v.name)) l := by
    induction vars with
    | nil => intro l; rfl
    | cons v vs ih =>
        intro l
        rw [List.foldl_cons, List.foldl_cons, List.append_assoc]
        exact ih (l ++ cnames.filter
          (fun nm => !(acc ++ l).contains nm && nm == v.name))
  simpa using key []

/-- C7 (amended): after a successful `makeIndexFactory`, `allVarNames`
contains exactly the block names referenced by at least one stored constraint
*that also name a Model variable*; names are appended constraint by
constraint in insertion order — each constraint contributing its
not-yet-present referenced names in the order of the model's variable list
(creation order) — so the global order follows the first referencing
constraint, not variable creation order. -/
theorem makeIndexFactory_block_order (m m2 : CyLPModel)
    (h : m.makeIndexFactory = .ok m2) :
    m2.allVarNames = allVarNamesCalc m.variables m.constraints ∧
    (∀ n, n ∈ m2.allVarNames ↔
        (∃ c ∈ m.constraints, n ∈ c.varNames) ∧ ∃ v ∈ m.variables, v.name = n) ∧
    (∀ cs c, allVarNamesCalc m.variables (cs ++ [c]) =
        allVarNamesCalc m.variables cs ++
          newBlockNames m.variables c.varNames (allVarNamesCalc m.variables cs)) := by
  have havn : m2.allVarNames = allVarNamesCalc m.variables m.constraints := by
    simp only [CyLPModel.makeIndexFactory] at h
    split at h
    · exact absurd h (by simp)
    · split at h
      · exact absurd h (by simp)
      · rw [Except.ok.injEq] at h
        rw [← h]
  refine ⟨havn, ?_, ?_⟩
  · intro n
    rw [havn]
    exact allVarNamesCalc_mem m.variables m.constraints n
  · intro cs c
    unfold allVarNamesCalc
    rw [List.foldl_append, List.foldl_cons, List.foldl_nil]
    exact innerFold_as_append c.varNames m.variables _

/-- Witness for `makeIndexFactory_block_order`: a one-variable, one-constraint
model; its `allVarNames` is the collected list and contains the referenced
block. -/
theorem makeIndexFactory_block_order_witness :
    (let xm := CyLPModel.init.addVariable "x" 1
     let t : CyLPExpr := .node "<=" (.node "*" (.num 2) (.var xm.1)) (.num 3)
     let M := match xm.2.addConstraint t with | .ok r => r | .error _ => xm.2
     let M2 := match M.makeIndexFactory with | .ok r => r | .error _ => M
     M2.allVarNames = allVarNamesCalc M.variables M.constraints ∧
       "x" ∈ M2.allVarNames) := by
  exact ⟨(makeIndexFactory_block_order _ _ (by rfl)).1, by decide⟩

/-- The key list of the per-name update of `idxExtend` is unchanged. -/
theorem updMap_fst (idx : List (String × List Nat)) (name : String) (rg : List Nat) :
    ((idx.map (fun p => if p.1 == name then (p.1, p.2 ++ rg) else p)).map Prod.fst) =
      idx.map Prod.fst := by
  induction idx with
  | nil => rfl
  | cons p t ih =>
      simp only [List.map_cons]
      have hh : ((if (p.1 == name) = true then (p.1, p.2 ++ rg) else p) :
          String × List Nat).1 = p.1 := by split <;> rfl
      rw [hh, ih]

/-- With no matching key the per-name update is the identity. -/
theorem updMap_id (idx : List (String × List Nat)) (name : String) (rg : List Nat)
    (h : idx.any (fun p => p.1 == name) = false) :
    idx.map (fun p => if p.1 == name then (p.1, p.2 ++ rg) else p) = idx := by
  induction idx with
  | nil => rfl
  | cons p t ih =>
      simp only [List.any_cons, Bool.or_eq_false_iff] at h
      simp only [List.map_cons]
      rw [if_neg (by simp [h.1]), ih h.2]

/-- Appending `rg` to the (unique, by key nodup) matching entry permutes the
flattened value lists by appending `rg` at the end. -/
theorem updMap_flatten_perm (idx : List (String × List Nat)) (name : String)
    (rg : List Nat) (hn : (idx.map Prod.fst).Nodup)
    (hp : idx.any (fun p => p.1 == name) = true) :
    List.Perm
      (((idx.map (fun p => if p.1 == name then (p.1, p.2 ++ rg) else p)).map Prod.snd).flatten)
      ((idx.map Prod.snd).flatten ++ rg) := by
  induction idx with
  | nil => simp at hp
  | cons p t ih =>
      obtain ⟨hnotin, hnt⟩ := List.nodup_cons.mp hn
      by_cases hph : (p.1 == name) = true
      · have hname : p.1 = name := by simpa using hph
        have ht : t.any (fun p2 => p2.1 == name) = false := by
          cases hany : t.any (fun p2 => p2.1 == name)
          · rfl
          · exfalso
            obtain ⟨p2, hp2m, hp2e⟩ := List.any_eq_true.mp hany
            have h2 : p2.1 = name := by simpa using hp2e
            exact hnotin (hname ▸ h2 ▸ List.mem_map_of_mem Prod.fst hp2m)
        rw [List.map_cons, List.map_cons, if_pos hph, updMap_id t name rg ht]
        simp only [List.map_cons, List.flatten_cons]
        have h1 : (p.2 ++ rg) ++ ((t.map Prod.snd).flatten) =
            p.2 ++ (rg ++ (t.map Prod.snd).flatten) := by rw [List.append_assoc]
        have h2 : (p.2 ++ (t.map Prod.snd).flatten) ++ rg =
            p.2 ++ ((t.map Prod.snd).flatten ++ rg) := by rw [List.append_assoc]
        rw [h1, h2]
        exact List.Perm.append_left _ List.perm_append_comm
      · have hp2 : t.any (fun p2 => p2.1 == name) = true := by
          rw [List.any_cons] at hp
          rcases Bool.or_eq_true_iff.mp hp with h1 | h1
          · exact absurd h1 hph
          · exact h1
        rw [List.map_cons, if_neg (by simp [hph])]
        simp only [List.map_cons, List.flatten_cons]
        have h2 : (p.2 ++ (t.map Prod.snd).flatten) ++ rg =
            p.2 ++ ((t.map Prod.snd).flatten ++ rg) := by rw [List.append_assoc]
        rw [h2]
        exact List.Perm.append_left _ (ih hnt hp2)

/-- The invariant of the (index list, cursor) state: keys are distinct and the
assigned indices are, as a multiset, exactly `0, …, cursor - 1`. -/
def IdxOk (s : List (String × List Nat) × Nat) : Prop :=
  (s.1.map Prod.fst).Nodup ∧
    List.Perm ((s.1.map Prod.snd).flatten) (List.range s.2)

theorem idxStep_ok (s : List (String × List Nat) × Nat) (p : String × Nat)
    (h : IdxOk s) : IdxOk (idxStep s p) := by
  obtain ⟨hn, hperm⟩ := h
  unfold idxStep
  split
  · exact ⟨hn, hperm⟩
  · unfold idxExtend IdxOk
    have hrange : List.range s.2 ++ List.range' s.2 p.2 = List.range (s.2 + p.2) := by
      rw [List.range_eq_range', List.range_eq_range']
      have := List.range'_append 0 s.2 p.2 1
      simpa [Nat.add_comm] using this
    split
    · rename_i hany
      constructor
      · rw [updMap_fst]; exact hn
      · refine (updMap_flatten_perm s.1 p.1 (List.range' s.2 p.2) hn hany).trans ?_
        rw [← hrange]
        exact List.Perm.append_right _ hperm
    · constructor
      · rename_i hany
        rw [List.map_append]
        simp only [List.map_cons, List.map_nil]
        rw [List.nodup_append]
        refine ⟨hn, List.nodup_singleton _, ?_⟩
        intro a ha hb
        simp only [List.mem_singleton] at hb
        subst hb
        obtain ⟨q, hq, hq2⟩ := List.mem_map.mp ha
        have : s.1.any (fun r => r.1 == p.1) = true :=
          List.any_eq_true.mpr ⟨q, hq, by simp [hq2]⟩
        simp [this] at hany
      · rw [List.map_append]
        simp only [List.map_cons, List.map_nil, List.flatten_append, List.flatten_cons,
          List.flatten_nil, List.append_nil]
        rw [← hrange]
        exact List.Perm.append_right _ hperm

theorem foldl_idxStep_ok (calls : List (String × Nat))
    (s : List (String × List Nat) × Nat) (h : IdxOk s) :
    IdxOk (calls.foldl idxStep s) := by
  induction calls generalizing s with
  | nil => exact h
  | cons c cs ih => exact ih _ (idxStep_ok s c h)

theorem foldl_idxStep_cur (calls : List (String × Nat))
    (s : List (String × List Nat) × Nat) :
    (calls.foldl idxStep s).2 = s.2 + (calls.map Prod.snd).sum := by
  induction calls generalizing s with
  | nil => simp
  | cons c cs ih =>
      rw [List.foldl_cons, ih]
      unfold idxStep
      split
      · rename_i h0; simp [h0]
      · simp [Nat.add_assoc]

theorem idxGet_mem (idx : List (String × List Nat)) (name : String) (l : List Nat)
    (h : idxGet idx name = some l) : (name, l) ∈ idx := by
  unfold idxGet at h
  cases hf : List.find? (fun p => p.1 == name) idx with
  | none => rw [hf] at h; simp at h
  | some p =>
      rw [hf] at h
      simp only [Option.map_some', Option.some.injEq] at h
      have hm := List.mem_of_find?_eq_some hf
      have hpred : p.1 = name := by simpa using List.find?_some hf
      have hpe : p = (name, l) := by
        cases p
        simp only [Prod.mk.injEq]
        exact ⟨hpred, h⟩
      rwa [hpe] at hm

theorem idxGet_any (idx : List (String × List Nat)) (name : String) (l : List Nat)
    (h : idxGet idx name = some l) : idx.any (fun p => p.1 == name) = true :=
  List.any_eq_true.mpr ⟨(name, l), idxGet_mem idx name l h, by simp⟩

/-- Distinct names' assigned lists are disjoint whenever the flattened value
lists have no duplicate. -/
theorem disjoint_of_flatten_nodup (idx : List (String × List Nat))
    (hf : ((idx.map Prod.snd).flatten).Nodup) :
    ∀ n1 n2 l1 l2, n1 ≠ n2 → idxGet idx n1 = some l1 → idxGet idx n2 = some l2 →
      ∀ i ∈ l1, i ∉ l2 := by
  induction idx with
  | nil => intro n1 n2 l1 l2 _ h1; simp [idxGet] at h1
  | cons p t ih =>
      intro n1 n2 l1 l2 hne h1 h2 i hi1 hi2
      simp only [List.map_cons, List.flatten_cons] at hf
      rw [List.nodup_append] at hf
      obtain ⟨hnp, hnt, hdisj⟩ := hf
      unfold idxGet at h1 h2
      rw [List.find?_cons] at h1 h2
      by_cases hc1 : (p.1 == n1) = true <;> by_cases hc2 : (p.1 == n2) = true
      · refine absurd ?_ hne
        have e1 : p.1 = n1 := by simpa using hc1
        have e2 : p.1 = n2 := by simpa using hc2
        rw [← e1, e2]
      · have hc2f : (p.1 == n2) = false := by simpa using hc2
        simp only [hc1] at h1
        simp only [hc2f] at h2
        simp only [Option.map_some', Option.some.injEq] at h1
        have h2m : (n2, l2) ∈ t := idxGet_mem t n2 l2 h2
        have hfl : i ∈ ((t.map Prod.snd).flatten) :=
          List.mem_flatten.mpr ⟨l2, List.mem_map_of_mem Prod.snd h2m, hi2⟩
        exact hdisj (h1 ▸ hi1) hfl
      · have hc1f : (p.1 == n1) = false := by simpa using hc1
        simp only [hc1f] at h1
        simp only [hc2] at h2
        simp only [Option.map_some', Option.some.injEq] at h2
        have h1m : (n1, l1) ∈ t := idxGet_mem t n1 l1 h1
        have hfl : i ∈ ((t.map Prod.snd).flatten) :=
          List.mem_flatten.mpr ⟨l1, List.mem_map_of_mem Prod.snd h1m, hi1⟩
        exact hdisj (h2 ▸ hi2) hfl
      · have hc1f : (p.1 == n1) = false := by simpa using hc1
        have hc2f : (p.1 == n2) = false := by simpa using hc2
        simp only [hc1f] at h1
        simp only [hc2f] at h2
        exact ih hnt n1 n2 l1 l2 hne h1 h2 i hi1 hi2

/-- Under the cursor invariant every stored index is below the cursor. -/
theorem stored_lt_cursor (idx : List (String × List Nat)) (cur : Nat)
    (hperm : List.Perm ((idx.map Prod.snd).flatten) (List.range cur))
    (name : String) (l : List Nat) (h : idxGet idx name = some l) :
    ∀ i ∈ l, i < cur := by
  intro i hi
  have hmem : i ∈ ((idx.map Prod.snd).flatten) :=
    List.mem_flatten.mpr ⟨l, List.mem_map_of_mem Prod.snd (idxGet_mem idx name l h), hi⟩
  exact List.mem_range.mp (hperm.mem_iff.mp hmem)

/-- Looking up the extended name after the per-name update. -/
theorem idxGet_updMap (idx : List (String × List Nat)) (name : String)
    (rg : List Nat) (l : List Nat) (h : idxGet idx name = some l) :
    idxGet (idx.map (fun p => if p.1 == name then (p.1, p.2 ++ rg) else p)) name =
      some (l ++ rg) := by
  induction idx with
  | nil => simp [idxGet] at h
  | cons p t ih =>
      unfold idxGet at h ⊢
      rw [List.find?_cons] at h
      by_cases hc : (p.1 == name) = true
      · simp only [hc] at h
        simp only [Option.map_some', Option.some.injEq] at h
        simp only [List.map_cons, if_pos hc, List.find?_cons]
        have hc2 : (((p.1, p.2 ++ rg) : String × List Nat).1 == name) = true := hc
        simp only [hc2]
        simp [h]
      · have hcf : (p.1 == name) = false := by simpa using hc
        simp only [hcf] at h
        simp only [List.map_cons, if_neg hc, List.find?_cons]
        have hc2 : (((p : String × List Nat).1 == name) = false) := hcf
        simp only [hc2]
        exact ih h

theorem addVar_proj (f : IndexFactory) (name : String) (n : Nat) :
    ((f.addVar name n).varIndex, (f.addVar name n).currentVarIndex) =
      idxStep (f.varIndex, f.currentVarIndex) (name, n) := by
  unfold IndexFactory.addVar idxStep
  by_cases h : n = 0 <;> simp [h]

theorem addConst_proj (f : IndexFactory) (name : String) (n : Nat) :
    ((f.addConst name n).constIndex, (f.addConst name n).currentConstIndex) =
      idxStep (f.constIndex, f.currentConstIndex) (name, n) := by
  unfold IndexFactory.addConst idxStep
  by_cases h : n = 0 <;> simp [h]

theorem applyAddVarCalls_proj (calls : List (String × Nat)) :
    ((applyAddVarCalls calls).varIndex, (applyAddVarCalls calls).currentVarIndex) =
      calls.foldl idxStep ([], 0) := by
  unfold applyAddVarCalls
  have key : ∀ f : IndexFactory,
      ((calls.foldl (fun f p => f.addVar p.1 p.2) f).varIndex,
       (calls.foldl (fun f p => f.addVar p.1 p.2) f).currentVarIndex) =
        calls.foldl idxStep (f.varIndex, f.currentVarIndex) := by
    induction calls with
    | nil => intro f; rfl
    | cons c cs ih =>
        intro f
        rw [List.foldl_cons, List.foldl_cons, ih, addVar_proj]
  simpa [IndexFactory.init] using key IndexFactory.init

theorem applyAddConstCalls_proj (calls : List (String × Nat)) :
    ((applyAddConstCalls calls).constIndex, (applyAddConstCalls calls).currentConstIndex) =
      calls.foldl idxStep ([], 0) := by
  unfold applyAddConstCalls
  have key : ∀ f : IndexFactory,
      ((calls.foldl (fun f p => f.addConst p.1 p.2) f).constIndex,
       (calls.foldl (fun f p => f.addConst p.1 p.2) f).currentConstIndex) =
        calls.foldl idxStep (f.constIndex, f.currentConstIndex) := by
    induction calls with
    | nil => intro f; rfl
    | cons c cs ih =>
        intro f
        rw [List.foldl_cons, List.foldl_cons, ih, addConst_proj]
  simpa [IndexFactory.init] using key IndexFactory.init

/-- A positive-count step on a state holding `name` strictly extends `name`'s
list by the next `n` indices, which are disjoint from everything stored. -/
theorem idxStep_extends (s : List (String × List Nat) × Nat) (hok : IdxOk s)
    (name : String) (l : List Nat) (n : Nat) (hn : 0 < n)
    (hl : idxGet s.1 name = some l) :
    idxGet (idxStep s (name, n)).1 name = some (l ++ List.range' s.2 n) ∧
    List.range' s.2 n ≠ [] ∧
    (∀ name2 l2, idxGet s.1 name2 = some l2 →
      ∀ i ∈ List.range' s.2 n, i ∉ l2) := by
  refine ⟨?_, ?_, ?_⟩
  · unfold idxStep
    rw [if_neg (by omega)]
    unfold idxExtend
    rw [if_pos (idxGet_any s.1 name l hl)]
    exact idxGet_updMap s.1 name (List.range' s.2 n) l hl
  · rw [Ne, List.range'_eq_nil]
    omega
  · intro name2 l2 h2 i hi hil2
    have hge : s.2 ≤ i := by
      obtain ⟨j, hj, hij⟩ := List.mem_range'.mp hi
      omega
    have hlt : i < s.2 := stored_lt_cursor s.1 s.2 hok.2 name2 l2 h2 i hil2
    omega

/-- C6: for any sequence of `addVar` (respectively `addConst`) calls with
positive counts on a fresh `IndexFactory`: the ranges assigned to distinct
names are pairwise disjoint; the union of all assigned ranges has length equal
to the sum of the counts; and re-adding an already present name strictly
extends that name's range by appending a new nonempty block disjoint from
every previously assigned range. -/
theorem indexFactory_ranges (calls : List (String × Nat))
    (_hpos : ∀ p ∈ calls, 0 < p.2) :
    ((∀ n1 n2 l1 l2, n1 ≠ n2 →
          idxGet (applyAddVarCalls calls).varIndex n1 = some l1 →
          idxGet (applyAddVarCalls calls).varIndex n2 = some l2 →
          ∀ i ∈ l1, i ∉ l2) ∧
      (((applyAddVarCalls calls).varIndex.map (fun p => p.2.length)).sum =
          (calls.map Prod.snd).sum) ∧
      (∀ name l n, 0 < n →
          idxGet (applyAddVarCalls calls).varIndex name = some l →
          idxGet ((applyAddVarCalls calls).addVar name n).varIndex name =
            some (l ++ List.range' (applyAddVarCalls calls).currentVarIndex n) ∧
          List.range' (applyAddVarCalls calls).currentVarIndex n ≠ [] ∧
          (∀ name2 l2, idxGet (applyAddVarCalls calls).varIndex name2 = some l2 →
            ∀ i ∈ List.range' (applyAddVarCalls calls).currentVarIndex n, i ∉ l2))) ∧
    ((∀ n1 n2 l1 l2, n1 ≠ n2 →
          idxGet (applyAddConstCalls calls).constIndex n1 = some l1 →
          idxGet (applyAddConstCalls calls).constIndex n2 = some l2 →
          ∀ i ∈ l1, i ∉ l2) ∧
      (((applyAddConstCalls calls).constIndex.map (fun p => p.2.length)).sum =
          (calls.map Prod.snd).sum) ∧
      (∀ name l n, 0 < n →
          idxGet (applyAddConstCalls calls).constIndex name = some l →
          idxGet ((applyAddConstCalls calls).addConst name n).constIndex name =
            some (l ++ List.range' (applyAddConstCalls calls).currentConstIndex n) ∧
          List.range' (applyAddConstCalls calls).currentConstIndex n ≠ [] ∧
          (∀ name2 l2, idxGet (applyAddConstCalls calls).constIndex name2 = some l2 →
            ∀ i ∈ List.range' (applyAddConstCalls calls).currentConstIndex n, i ∉ l2))) := by
  have hok : IdxOk (calls.foldl idxStep ([], 0)) :=
    foldl_idxStep_ok calls ([], 0) ⟨List.nodup_nil, by simp⟩
  have hcur : (calls.foldl idxStep ([], 0)).2 = (calls.map Prod.snd).sum := by
    rw [foldl_idxStep_cur]
    simp
  have hflat : ((calls.foldl idxStep ([], 0)).1.map Prod.snd).flatten.Nodup :=
    (hok.2.nodup_iff).mpr (List.nodup_range _)
  have hsum : (((calls.foldl idxStep ([], 0)).1.map Prod.snd).map List.length).sum =
      (calls.map Prod.snd).sum := by
    rw [← List.length_flatten, hok.2.length_eq, List.length_range, hcur]
  constructor
  · have hproj := applyAddVarCalls_proj calls
    have hidx : (applyAddVarCalls calls).varIndex = (calls.foldl idxStep ([], 0)).1 :=
      congrArg Prod.fst hproj
    have hc : (applyAddVarCalls calls).currentVarIndex = (calls.foldl idxStep ([], 0)).2 :=
      congrArg Prod.snd hproj
    refine ⟨?_, ?_, ?_⟩
    · rw [hidx]; exact disjoint_of_flatten_nodup _ hflat
    · rw [hidx, ← hsum, List.map_map]; rfl
    · intro name l n hn hl
      rw [hidx] at hl
      have hext := idxStep_extends (calls.foldl idxStep ([], 0)) hok name l n hn hl
      have haddp := addVar_proj (applyAddVarCalls calls) name n
      have haddidx : ((applyAddVarCalls calls).addVar name n).varIndex =
          (idxStep ((applyAddVarCalls calls).varIndex,
            (applyAddVarCalls calls).currentVarIndex) (name, n)).1 :=
        congrArg Prod.fst haddp
      rw [haddidx, hidx, hc]
      exact ⟨hext.1, hext.2.1, hext.2.2⟩
  · have hproj := applyAddConstCalls_proj calls
    have hidx : (applyAddConstCalls calls).constIndex = (calls.foldl idxStep ([], 0)).1 :=
      congrArg Prod.fst hproj
    have hc : (applyAddConstCalls calls).currentConstIndex = (calls.foldl idxStep ([], 0)).2 :=
      congrArg Prod.snd hproj
    refine ⟨?_, ?_, ?_⟩
    · rw [hidx]; exact disjoint_of_flatten_nodup _ hflat
    · rw [hidx, ← hsum, List.map_map]; rfl
    · intro name l n hn hl
      rw [hidx] at hl
      have hext := idxStep_extends (calls.foldl idxStep ([], 0)) hok name l n hn hl
      have haddp := addConst_proj (applyAddConstCalls calls) name n
      have haddidx : ((applyAddConstCalls calls).addConst name n).constIndex =
          (idxStep ((applyAddConstCalls calls).constIndex,
            (applyAddConstCalls calls).currentConstIndex) (name, n)).1 :=
        congrArg Prod.fst haddp
      rw [haddidx, hidx, hc]
      exact ⟨hext.1, hext.2.1, hext.2.2⟩

/-- Witness for `indexFactory_ranges`: calls `[("x", 2), ("y", 3)]`, then
re-adding `"x"` with 2 appends the next two indices. -/
theorem indexFactory_ranges_witness :
    idxGet ((applyAddVarCalls [("x", 2), ("y", 3)]).addVar "x" 2).varIndex "x" =
      some ([0, 1] ++ List.range' 5 2) ∧
    ((applyAddVarCalls [("x", 2), ("y", 3)]).varIndex.map (fun p => p.2.length)).sum = 5 := by
  constructor
  · exact ((indexFactory_ranges [("x", 2), ("y", 3)] (by decide)).1.2.2
      "x" [0, 1] 2 (by decide) (by rfl)).1
  · exact (indexFactory_ranges [("x", 2), ("y", 3)] (by decide)).1.2.1

/-- Evaluating `w * v <= q` (vector coefficient of the right length): the
constraint records the coefficient for `v`, one row, bounds `(-∞, q]`. -/
theorem evaluate_arr_mult_le (v : CyLPVar) (w : List ℚ) (q : ℚ)
    (st : BoundStore) (fl : FlagStore) (hlen : w.length = v.dim) :
    CyLPExpr.evaluate (.node "<=" (.node "*" (.arr w) (.var v)) (.num q)) st fl =
      .ok ({ varNames := [v.name], parentVarDims := [(v.name, v.parentDim)],
             varCoefs := [(v, .vec w)], lower := some [-getCoinInfinity],
             upper := some [q], nRows := some 1, isRange := false,
             «variables» := [v] }, st, flagSet fl v.vid true) := by
  simp [CyLPExpr.evaluate, CyLPExpr.getPostfix, walkTokens, stepTok,
        CyLPConstraint.perform, performBlock1, performBlock2, performBlock3,
        performBlock4, decodeOp, isCmp, isCyExprVal, applyWrites,
        CyLPConstraint.init, cyOperators, addVarName, dictSet, setCoef,
        npTruthy, hlen, flagSet]

/-- Evaluating `c * v <= q` (scalar coefficient): identical to the vector case
with the broadcast coefficient `c · ones(v.dim)`. -/
theorem evaluate_num_mult_le (v : CyLPVar) (c q : ℚ)
    (st : BoundStore) (fl : FlagStore) :
    CyLPExpr.evaluate (.node "<=" (.node "*" (.num c) (.var v)) (.num q)) st fl =
      .ok ({ varNames := [v.name], parentVarDims := [(v.name, v.parentDim)],
             varCoefs := [(v, .vec (List.replicate v.dim c))], lower := some [-getCoinInfinity],
             upper := some [q], nRows := some 1, isRange := false,
             «variables» := [v] }, st, flagSet fl v.vid true) := by
  simp [CyLPExpr.evaluate, CyLPExpr.getPostfix, walkTokens, stepTok,
        CyLPConstraint.perform, performBlock1, performBlock2, performBlock3,
        performBlock4, decodeOp, isCmp, isCyExprVal, applyWrites,
        CyLPConstraint.init, cyOperators, addVarName, dictSet, setCoef,
        npTruthy, flagSet]

/-- Evaluating `M * v <= q` (matrix coefficient with matching columns): the
matrix itself is recorded, the row count is `M`'s row count. -/
theorem evaluate_matx_mult_le (v : CyLPVar) (M : List (List ℚ)) (q : ℚ)
    (st : BoundStore) (fl : FlagStore) (hcols : matCols M = v.dim) :
    CyLPExpr.evaluate (.node "<=" (.node "*" (.matx M) (.var v)) (.num q)) st fl =
      .ok ({ varNames := [v.name], parentVarDims := [(v.name, v.parentDim)],
             varCoefs := [(v, .mat M)],
             lower := some (List.replicate M.length (-getCoinInfinity)),
             upper := some (List.replicate M.length q), nRows := some M.length,
             isRange := false, «variables» := [v] }, st, flagSet fl v.vid true) := by
  simp [CyLPExpr.evaluate, CyLPExpr.getPostfix, walkTokens, stepTok,
        CyLPConstraint.perform, performBlock1, performBlock2, performBlock3,
        performBlock4, decodeOp, isCmp, isCyExprVal, applyWrites,
        CyLPConstraint.init, cyOperators, addVarName, dictSet, setCoef,
        npTruthy, hcols, flagSet]

theorem scatterList_length (a : List ℚ) (ids : List Nat) (vals : List ℚ) :
    (scatterList a ids vals).length = a.length := by
  unfold scatterList
  have key : ∀ (l : List (Nat × ℚ)) (acc : List ℚ),
      (l.foldl (fun acc p => acc.set p.1 p.2) acc).length = acc.length := by
    intro l
    induction l with
    | nil => intro acc; rfl
    | cons p t ih => intro acc; rw [List.foldl_cons, ih, List.length_set]
  exact key _ a

theorem scatterList_get_not_mem (a : List ℚ) (ids : List Nat) (vals : List ℚ)
    (j : Nat) (hj : j ∉ ids) :
    (scatterList a ids vals)[j]? = a[j]? := by
  induction ids generalizing vals a with
  | nil => rfl
  | cons i t ih =>
      cases vals with
      | nil => rfl
      | cons v vs =>
          unfold scatterList
          rw [List.zip_cons_cons, List.foldl_cons]
          have hji : i ≠ j := fun he => hj (he ▸ List.mem_cons_self _ _)
          have hjt : j ∉ t := fun hm => hj (List.mem_cons_of_mem _ hm)
          calc (List.foldl (fun acc p => acc.set p.1 p.2) (a.set i v) (t.zip vs))[j]?
              = (a.set i v)[j]? := ih (a.set i v) vs hjt
            _ = a[j]? := List.getElem?_set_ne hji

theorem scatterList_get_pair (a : List ℚ) (ids : List Nat) (vals : List ℚ)
    (hnodup : ids.Nodup) (i : Nat) (v : ℚ)
    (hm : (i, v) ∈ ids.zip vals) (hb : i < a.length) :
    (scatterList a ids vals)[i]? = some v := by
  induction ids generalizing vals a with
  | nil => simp at hm
  | cons i0 t ih =>
      cases vals with
      | nil => simp at hm
      | cons v0 vs =>
          obtain ⟨h0, hnt⟩ := List.nodup_cons.mp hnodup
          unfold scatterList
          rw [List.zip_cons_cons, List.foldl_cons]
          rcases List.mem_cons.mp hm with he | hmt
          · have he1 : i = i0 := congrArg Prod.fst he
            have he2 : v = v0 := congrArg Prod.snd he
            subst he1
            subst he2
            rw [show List.foldl (fun acc p => acc.set p.1 p.2) (a.set i v) (t.zip vs) =
                  scatterList (a.set i v) t vs from rfl]
            rw [scatterList_get_not_mem _ _ _ _ h0]
            exact List.getElem?_set_self hb
          · exact ih (a.set i0 v0) vs hnt hmt (by rw [List.length_set]; exact hb)

theorem zipWith_zero_add (w : List ℚ) :
    List.zipWith (fun x y => x + y) (List.replicate w.length 0) w = w := by
  induction w with
  | nil => rfl
  | cons v t ih => simp only [List.length_cons, List.replicate_succ,
      List.zipWith_cons_cons, zero_add, ih]

theorem gather_zeros (ids : List Nat) (nd : Nat) :
    ids.map (fun i => (List.replicate nd (0 : ℚ)).getD i 0) =
      List.replicate ids.length 0 := by
  induction ids with
  | nil => rfl
  | cons i t ih =>
      simp only [List.map_cons, List.length_cons, List.replicate_succ, ih,
        List.cons.injEq, and_true]
      unfold List.getD
      rw [List.get?_eq_getElem?, List.getElem?_replicate]
      split <;> rfl

theorem npFancyAdd_zeros (nd : Nat) (l : List Nat) (vals : List ℚ)
    (h1 : ∀ i ∈ l, i < nd) (h2 : vals.length = l.length) :
    npFancyAdd (List.replicate nd 0) (some l) vals =
      .ok (scatterList (List.replicate nd 0) l vals) := by
  have hc : (l.any (fun i => (List.replicate nd (0 : ℚ)).length ≤ i)) = false := by
    simp only [List.any_eq_false, decide_eq_true_eq, List.length_replicate, not_le]
    exact h1
  simp only [npFancyAdd, hc, Bool.false_eq_true, if_false, gather_zeros, h2,
    eq_self_iff_true, if_true]
  rw [← h2, zipWith_zero_add]

/-- C1: coefficient placement by generateVarMatrix for single-block constraints
coef * v <= bound on a slice v of a block. (A) a vector coefficient is scattered
to the slice positions within the parent block's columns, zero elsewhere; (B) a
scalar coefficient goes through the same pipeline as its dim-length broadcast
vector; (C) a matrix coefficient with more than one row is returned RAW, at
slice width, NOT zero-padded to the parent block's columns — the claim's
placement property holds for vector and scalar coefficients only. -/
theorem generateVarMatrix_coef_placement (nm : String) (nd a b : Nat) :
    (let xm := CyLPModel.init.addVariable nm nd
     let sm := xm.1.getItemSlice a b xm.2
     let ids := List.range' a ((if nd < b then nd else b) - a)
     (∀ (w : List ℚ) (q : ℚ), w.length = sm.1.dim →
        (sm.2.addConstraint (.node "<=" (.node "*" (.arr w) (.var sm.1)) (.num q))).map
            (fun (m2 : CyLPModel) => m2.generateVarMatrix nm) =
          .ok (.ok (some [scatterList (List.replicate nd 0) ids w])) ∧
        (scatterList (List.replicate nd 0) ids w).length = nd ∧
        (∀ i v2, (i, v2) ∈ ids.zip w →
            (scatterList (List.replicate nd 0) ids w)[i]? = some v2) ∧
        (∀ j, j < nd → j ∉ ids →
            (scatterList (List.replicate nd 0) ids w)[j]? = some 0)) ∧
     (∀ (c q : ℚ),
        sm.2.addConstraint (.node "<=" (.node "*" (.num c) (.var sm.1)) (.num q)) =
          sm.2.addConstraint (.node "<=" (.node "*"
            (.arr (List.replicate sm.1.dim c)) (.var sm.1)) (.num q))) ∧
     (∀ (M : List (List ℚ)) (q : ℚ), matCols M = sm.1.dim → M.length ≠ 1 →
        (sm.2.addConstraint (.node "<=" (.node "*" (.matx M) (.var sm.1)) (.num q))).map
            (fun (m2 : CyLPModel) => m2.generateVarMatrix nm) =
          .ok (.ok (some M)))) := by
  dsimp only
  refine ⟨?_, ?_, ?_⟩
  · intro w q hlen
    simp only [CyLPModel.addVariable, CyLPVar.getItemSlice, CyLPModel.init,
      List.length_range'] at hlen
    have hmem : ∀ i ∈ List.range' a ((if nd < b then nd else b) - a), i < nd := by
      intro i hi
      obtain ⟨j, hj, he⟩ := List.mem_range'.mp hi
      have hsplit : (if nd < b then nd else b) ≤ nd := by split <;> omega
      omega
    have hfa := npFancyAdd_zeros nd (List.range' a ((if nd < b then nd else b) - a)) w hmem
      (by rw [List.length_range']; exact hlen)
    refine ⟨?_, ?_, ?_, ?_⟩
    · simp only [CyLPModel.addConstraint, evaluate_arr_mult_le, List.length_range', hlen,
        CyLPModel.addVariable, CyLPVar.getItemSlice, CyLPModel.init]
      simp [CyLPModel.makeMatrices, CyLPModel.makeIndexFactory, CyLPModel.generateVarMatrix,
            allVarNamesCalc, dictSet, dictGet, storeLookup, sparseConcat, Coef.toMat, getCoef,
            IndexFactory.init, IndexFactory.hasVar, IndexFactory.addVar, idxExtend,
            List.foldlM_nil, List.foldlM_cons, bind, Except.bind, pure, Except.pure,
            Except.map, flagSet, hfa, hlen]
    · rw [scatterList_length, List.length_replicate]
    · intro i v2 hm2
      have hiin := (List.of_mem_zip hm2).1
      exact scatterList_get_pair _ _ _ (List.nodup_range' _ _) i v2 hm2
        (by rw [List.length_replicate]; exact hmem i hiin)
    · intro j hj hnot
      rw [scatterList_get_not_mem _ _ _ _ hnot, List.getElem?_replicate, if_pos hj]
  · intro c q
    simp only [CyLPModel.addConstraint, evaluate_num_mult_le, evaluate_arr_mult_le,
      List.length_replicate]
  · intro M q hcols hne
    have hne2 : (M.length == 1) = false := by simpa using hne
    simp only [CyLPModel.addConstraint, evaluate_matx_mult_le _ _ _ _ _ hcols]
    simp [CyLPModel.makeMatrices, CyLPModel.makeIndexFactory, CyLPModel.generateVarMatrix,
          allVarNamesCalc, CyLPModel.addVariable, CyLPVar.getItemSlice, CyLPModel.init,
          dictSet, dictGet, storeLookup, sparseConcat, Coef.toMat, getCoef, hne2,
          IndexFactory.init, IndexFactory.hasVar, IndexFactory.addVar, idxExtend,
          List.foldlM_nil, List.foldlM_cons, bind, Except.bind, pure, Except.pure,
          Except.map, flagSet, hne]

/-- C1 counterexample: the claim's placement property fails for a matrix
coefficient on a slice. On a 3-dim block x with slice x[0:2], adding
[[1,2],[3,4]] * x[0:2] <= [5,6] makes generateVarMatrix "x" return the raw
2-column matrix [[1,2],[3,4]] instead of the zero-padded [[1,2,0],[3,4,0]]. -/
theorem varmatrix_matrix_slice_counterexample :
    ((((CyLPModel.init.addVariable "x" 3).1.getItemSlice 0 2
          (CyLPModel.init.addVariable "x" 3).2).2.addConstraint
        (.node "<=" (.node "*" (.matx [[1, 2], [3, 4]])
          (.var ((CyLPModel.init.addVariable "x" 3).1.getItemSlice 0 2
            (CyLPModel.init.addVariable "x" 3).2).1)) (.arr [5, 6]))).map
        (fun (m2 : CyLPModel) => m2.generateVarMatrix "x") =
      .ok (.ok (some [[1, 2], [3, 4]]))) ∧
    ([[(1 : ℚ), 2], [3, 4]] ≠ [[1, 2, 0], [3, 4, 0]]) := by
  exact ⟨by rfl, by decide⟩

/-- Witness for C1 at x a 3-dim block, slice x[1:3], vector coefficient [2,5],
bound 7: the produced row is [0,2,5]. -/
theorem generateVarMatrix_coef_placement_witness :
    ([(2 : ℚ), 5].length =
        ((CyLPModel.init.addVariable "x" 3).1.getItemSlice 1 3
          (CyLPModel.init.addVariable "x" 3).2).1.dim) ∧
    ((((CyLPModel.init.addVariable "x" 3).1.getItemSlice 1 3
          (CyLPModel.init.addVariable "x" 3).2).2.addConstraint
        (.node "<=" (.node "*" (.arr [2, 5])
          (.var ((CyLPModel.init.addVariable "x" 3).1.getItemSlice 1 3
            (CyLPModel.init.addVariable "x" 3).2).1)) (.num 7))).map
        (fun (m2 : CyLPModel) => m2.generateVarMatrix "x") =
      .ok (.ok (some [[0, 2, 5]]))) := by
  have h := generateVarMatrix_coef_placement "x" 3 1 3
  dsimp only at h
  have hl : ([(2 : ℚ), 5].length =
      ((CyLPModel.init.addVariable "x" 3).1.getItemSlice 1 3
        (CyLPModel.init.addVariable "x" 3).2).1.dim) := by rfl
  refine ⟨hl, ?_⟩
  have h2 := (h.1 [2, 5] 7 hl).1
  rw [h2]
  rfl

theorem renVar_pyRepr (f : Nat → Nat) (v : CyLPVar) :
    (renVar f v).pyRepr = v.pyRepr := rfl

theorem renVar_pyVarEq (f : Nat → Nat) (a b : CyLPVar) :
    pyVarEq (renVar f a) (renVar f b) = pyVarEq a b := rfl

theorem renVar_inj (f : Nat → Nat) (hf : Function.Injective f) :
    Function.Injective (renVar f) := by
  intro a b h
  cases a
  cases b
  simp only [renVar, CyLPVar.mk.injEq] at h ⊢
  exact ⟨hf h.1, h.2.1, h.2.2.1, h.2.2.2.1, Option.map_injective hf h.2.2.2.2.1,
         h.2.2.2.2.2⟩

theorem renVar_beq (f : Nat → Nat) (hf : Function.Injective f) (a b : CyLPVar) :
    (renVar f a == renVar f b) = (a == b) := by
  by_cases h : a = b
  · subst h
    simp
  · have h2 : renVar f a ≠ renVar f b := fun he => h (renVar_inj f hf he)
    simp [h, h2]

theorem isCyExprVal_ren (f : Nat → Nat) (e : CyLPExpr) :
    isCyExprVal (renExpr f e) = isCyExprVal e := by
  cases e <;> rfl

theorem setCoef_ren (f : Nat → Nat) (hf : Function.Injective f)
    (l : List (CyLPVar × Coef)) (k : CyLPVar) (co : Coef) :
    setCoef (renCoefs f l) (renVar f k) co = renCoefs f (setCoef l k co) := by
  have hany : (renCoefs f l).any (fun p => p.1 == renVar f k) =
      l.any (fun p => p.1 == k) := by
    rw [renCoefs, List.any_map]
    congr 1
    funext p
    exact renVar_beq f hf p.1 k
  simp only [setCoef, hany]
  split
  · rw [renCoefs, renCoefs, List.map_map, List.map_map]
    congr 1
    funext p
    simp only [Function.comp]
    rw [renVar_beq f hf]
    split <;> rfl
  · simp [renCoefs]

theorem getCoef_ren (f : Nat → Nat) (hf : Function.Injective f)
    (l : List (CyLPVar × Coef)) (k : CyLPVar) :
    getCoef (renCoefs f l) (renVar f k) = getCoef l k := by
  induction l with
  | nil => rfl
  | cons p t ih =>
      simp only [getCoef, renCoefs, List.map_cons, List.find?_cons] at ih ⊢
      rw [renVar_beq f hf]
      cases hc : (p.1 == k) with
      | true => rfl
      | false => exact ih

theorem mulCoefNeg_ren (f : Nat → Nat) (hf : Function.Injective f)
    (l : List (CyLPVar × Coef)) (k : CyLPVar) :
    mulCoefNeg (renCoefs f l) (renVar f k) =
      (mulCoefNeg l k).map (renCoefs f) := by
  have hany : (renCoefs f l).any (fun p => p.1 == renVar f k) =
      l.any (fun p => p.1 == k) := by
    rw [renCoefs, List.any_map]
    congr 1
    funext p
    exact renVar_beq f hf p.1 k
  simp only [mulCoefNeg, hany]
  split
  · simp only [Except.map]
    congr 1
    rw [renCoefs, renCoefs, List.map_map, List.map_map]
    congr 1
    funext p
    simp only [Function.comp]
    rw [renVar_beq f hf]
    split <;> rfl
  · rfl

theorem pyInKeys_ren (f : Nat → Nat) (l : List (CyLPVar × Coef)) (k : CyLPVar) :
    pyInKeys (renCoefs f l) (renVar f k) = pyInKeys l k := by
  rw [pyInKeys, renCoefs, List.any_map]
  congr 1

theorem addVarName_ren (f : Nat → Nat) (c : CyLPConstraint) (v : CyLPVar) :
    addVarName (renCons f c) (renVar f v) = renCons f (addVarName c v) := by
  simp only [addVarName, renCons, renVar]
  split <;> rfl

@[simp] theorem renVar_name (f : Nat → Nat) (v : CyLPVar) :
    (renVar f v).name = v.name := rfl

@[simp] theorem renVar_dim (f : Nat → Nat) (v : CyLPVar) :
    (renVar f v).dim = v.dim := rfl

@[simp] theorem renVar_parentDim (f : Nat → Nat) (v : CyLPVar) :
    (renVar f v).parentDim = v.parentDim := rfl

@[simp] theorem renVar_indices (f : Nat → Nat) (v : CyLPVar) :
    (renVar f v).indices = v.indices := rfl

@[simp] theorem renVar_vid (f : Nat → Nat) (v : CyLPVar) :
    (renVar f v).vid = f v.vid := rfl

@[simp] theorem renVar_parent (f : Nat → Nat) (v : CyLPVar) :
    (renVar f v).parent = v.parent.map f := rfl

@[simp] theorem renCons_varNames (f : Nat → Nat) (c : CyLPConstraint) :
    (renCons f c).varNames = c.varNames := rfl

@[simp] theorem renCons_parentVarDims (f : Nat → Nat) (c : CyLPConstraint) :
    (renCons f c).parentVarDims = c.parentVarDims := rfl

@[simp] theorem renCons_varCoefs (f : Nat → Nat) (c : CyLPConstraint) :
    (renCons f c).varCoefs = renCoefs f c.varCoefs := rfl

@[simp] theorem renCons_lower (f : Nat → Nat) (c : CyLPConstraint) :
    (renCons f c).lower = c.lower := rfl

@[simp] theorem renCons_upper (f : Nat → Nat) (c : CyLPConstraint) :
    (renCons f c).upper = c.upper := rfl

@[simp] theorem renCons_nRows (f : Nat → Nat) (c : CyLPConstraint) :
    (renCons f c).nRows = c.nRows := rfl

@[simp] theorem renCons_isRange (f : Nat → Nat) (c : CyLPConstraint) :
    (renCons f c).isRange = c.isRange := rfl

@[simp] theorem renCons_variables (f : Nat → Nat) (c : CyLPConstraint) :
    (renCons f c).variables = c.variables.map (renVar f) := rfl

theorem renCons_mk (f : Nat → Nat) (vns : List String) (pvd : List (String × Nat))
    (vc : List (CyLPVar × Coef)) (lo up : Option (List ℚ)) (n : Option Nat) (b : Bool)
    (vars : List CyLPVar) :
    CyLPConstraint.mk vns pvd (renCoefs f vc) lo up n b (vars.map (renVar f)) =
      renCons f (CyLPConstraint.mk vns pvd vc lo up n b vars) := rfl

theorem renCons_mk_cons (f : Nat → Nat) (vns : List String) (pvd : List (String × Nat))
    (vc : List (CyLPVar × Coef)) (lo up : Option (List ℚ)) (n : Option Nat) (b : Bool)
    (v : CyLPVar) (vars : List CyLPVar) :
    CyLPConstraint.mk vns pvd (renCoefs f vc) lo up n b
        (renVar f v :: List.map (renVar f) vars) =
      renCons f (CyLPConstraint.mk vns pvd vc lo up n b (v :: vars)) := rfl

theorem renCons_update3 (f : Nat → Nat) (c : CyLPConstraint)
    (vc : List (CyLPVar × Coef)) (n : Option Nat) (b : Bool) :
    ({ renCons f c with varCoefs := renCoefs f vc, nRows := n, isRange := b } :
        CyLPConstraint) =
      renCons f { c with varCoefs := vc, nRows := n, isRange := b } := rfl

set_option maxRecDepth 4000 in
theorem performBlock1_ren (f : Nat → Nat) (hf : Function.Injective f) (k : OpKind)
    (l r : CyLPExpr) (c : CyLPConstraint) :
    performBlock1 k (renExpr f l) (renExpr f r) (renCons f c) =
      (performBlock1 k l r c).map (renCons f) := by
  cases r with
  | var rv =>
      simp only [performBlock1, renExpr, addVarName_ren]
      cases k with
      | uminus =>
          simp only [Except.map]
          congr 1
          simp only [renCons_varCoefs]
          rw [setCoef_ren f hf]
          rfl
      | summ => rfl
      | mult =>
          cases l with
          | num q =>
              simp only [renExpr, renCons_nRows]
              split
              · rfl
              · simp only [Except.map]
                congr 1
                simp only [renCons_varCoefs]
                rw [setCoef_ren f hf]
                rfl
          | arr a =>
              simp only [renExpr, renCons_nRows, renVar_dim]
              split
              · rfl
              · split
                · rfl
                · simp only [Except.map]
                  congr 1
                  simp only [renCons_varCoefs]
                  rw [setCoef_ren f hf]
                  rfl
          | matx m =>
              simp only [renExpr, renCons_nRows, renVar_dim]
              split
              · rfl
              · split
                · rfl
                · simp only [Except.map]
                  congr 1
                  simp only [renCons_varCoefs]
                  rw [setCoef_ren f hf]
                  rfl
          | var lv => rfl
          | node o a b => rfl
          | pystr s => rfl
      | plus =>
          cases l <;>
            (simp only [renExpr, renCons_varNames, renCons_parentVarDims,
               renCons_varCoefs, renCons_lower, renCons_upper, renCons_nRows,
               renCons_isRange, renCons_variables, renVar_dim, setCoef_ren f hf,
               renCons_mk, addVarName_ren, pyInKeys_ren, mulCoefNeg_ren f hf]
             split
             · split <;> split <;>
                 first
                 | (simp_all [Except.map]; done)
                 | (simp_all only [Except.map, Except.ok.injEq]
                    rename_i hvc hm
                    rw [← hvc]
                    rfl)
             · simp [Except.map])
      | minus =>
          cases l <;>
            (simp only [renExpr, renCons_varNames, renCons_parentVarDims,
               renCons_varCoefs, renCons_lower, renCons_upper, renCons_nRows,
               renCons_isRange, renCons_variables, renVar_dim, setCoef_ren f hf,
               renCons_mk, addVarName_ren, pyInKeys_ren, mulCoefNeg_ren f hf]
             split
             · split <;> split <;>
                 first
                 | (simp_all [Except.map]; done)
                 | (simp_all only [Except.map, Except.ok.injEq]
                    rename_i hvc hm
                    rw [← hvc]
                    rfl)
             · simp [Except.map])
      | cmpLe => rfl
      | cmpGe => rfl
      | cmpEq => rfl
      | other => rfl
  | num q => cases k <;> rfl
  | arr a => cases k <;> rfl
  | matx m => cases k <;> rfl
  | node o a b => cases k <;> rfl
  | pystr s => cases k <;> rfl

theorem performBlock2_ren (f : Nat → Nat) (hf : Function.Injective f) (k : OpKind)
    (l : CyLPExpr) (c : CyLPConstraint) :
    performBlock2 k (renExpr f l) (renCons f c) = renCons f (performBlock2 k l c) := by
  cases l with
  | var lv =>
      simp only [performBlock2, renExpr]
      split
      · simp only [renCons_varNames, renCons_parentVarDims, renCons_varCoefs,
          renCons_lower, renCons_upper, renCons_nRows, renCons_isRange,
          renCons_variables, renVar_dim, setCoef_ren f hf, renCons_mk, addVarName_ren]
      · rfl
  | num q => rfl
  | arr a => rfl
  | matx m => rfl
  | node o a b => rfl
  | pystr s => rfl

theorem performBlock3_ren (f : Nat → Nat) (hf : Function.Injective f) (k : OpKind)
    (r : CyLPExpr) (c : CyLPConstraint) :
    performBlock3 k (renExpr f r) (renCons f c) =
      (performBlock3 k r c).map (renCons f) := by
  cases r with
  | node o a b =>
      simp only [performBlock3, renExpr]
      split
      · cases b with
        | var rv2 =>
            simp only [renExpr, renCons_varCoefs, mulCoefNeg_ren f hf]
            cases hmc : mulCoefNeg c.varCoefs rv2 with
            | ok vc =>
                simp only [Except.map]
                congr 1
            | error e => rfl
        | num q => rfl
        | arr a2 => rfl
        | matx m => rfl
        | node o2 a2 b2 => rfl
        | pystr s => rfl
      · rfl
  | var v => rfl
  | num q => rfl
  | arr a => rfl
  | matx m => rfl
  | pystr s => rfl

theorem getD_map_f (f : Nat → Nat) (o : Option Nat) (d : Nat) :
    (o.map f).getD (f d) = f (o.getD d) := by cases o <;> rfl

set_option maxRecDepth 4000 in
theorem performBlock4_ren (f : Nat → Nat) (hf : Function.Injective f) (k : OpKind)
    (l r : CyLPExpr) (c : CyLPConstraint) :
    performBlock4 k (renExpr f l) (renExpr f r) (renCons f c) =
      (performBlock4 k l r c).map (fun p => (renCons f p.1, p.2.map (renWrite f))) := by
  simp only [performBlock4, isCyExprVal_ren, renCons_isRange, renCons_variables,
    renCons_nRows]
  split
  · split
    · by_cases hr : c.isRange = true
      · simp only [hr, if_true]
        cases hv : c.variables with
        | nil => rfl
        | cons v t =>
            simp only [List.map_cons]
            cases r with
            | num q =>
                simp only [renExpr]
                simp only [Except.map, renWrite, renCons_varNames, renCons_parentVarDims,
                renCons_varCoefs, renCons_lower, renCons_upper, renCons_nRows,
                renCons_isRange, renCons_variables, renVar_parentDim, renVar_parent,
                renVar_vid, renVar_indices, getD_map_f, List.map_append, List.map_cons,
                List.map_nil, List.append_nil, List.nil_append, renCons_mk,
                renCons_mk_cons, if_true, if_false, hr, Bool.false_eq_true,
                isCyExprVal, Bool.not_true, Bool.not_false, Bool.and_true,
                Bool.and_false, Bool.or_false, Bool.false_or, ite_self,
                apply_ite (List.map (renWrite f)), apply_ite (renCons f),
                apply_ite CyLPConstraint.varNames, apply_ite CyLPConstraint.parentVarDims,
                apply_ite CyLPConstraint.varCoefs, apply_ite CyLPConstraint.lower,
                apply_ite CyLPConstraint.upper, apply_ite CyLPConstraint.nRows,
                apply_ite CyLPConstraint.isRange, apply_ite CyLPConstraint.variables]
            | var rv =>
                cases l <;> (try simp only [renExpr, isCyExprVal, Bool.not_true,
                  Bool.not_false, Bool.and_true, Bool.and_false, Bool.false_eq_true,
                  if_true, if_false]) <;>
                first
                | rfl
                | simp only [Except.map, renWrite, renCons_varNames, renCons_parentVarDims,
                  renCons_varCoefs, renCons_lower, renCons_upper, renCons_nRows,
                  renCons_isRange, renCons_variables, renVar_parentDim, renVar_parent,
                  renVar_vid, renVar_indices, getD_map_f, List.map_append, List.map_cons,
                  List.map_nil, List.append_nil, List.nil_append, renCons_mk,
                  renCons_mk_cons, if_true, if_false, hr, Bool.false_eq_true,
                  isCyExprVal, Bool.not_true, Bool.not_false, Bool.and_true,
                  Bool.and_false, Bool.or_false, Bool.false_or, ite_self,
                  apply_ite (List.map (renWrite f)), apply_ite (renCons f),
                  apply_ite CyLPConstraint.varNames, apply_ite CyLPConstraint.parentVarDims,
                  apply_ite CyLPConstraint.varCoefs, apply_ite CyLPConstraint.lower,
                  apply_ite CyLPConstraint.upper, apply_ite CyLPConstraint.nRows,
                  apply_ite CyLPConstraint.isRange, apply_ite CyLPConstraint.variables]
            | arr a2 =>
                cases l <;> (try simp only [renExpr, isCyExprVal, Bool.not_true,
                  Bool.not_false, Bool.and_true, Bool.and_false, Bool.false_eq_true,
                  if_true, if_false]) <;>
                first
                | rfl
                | simp only [Except.map, renWrite, renCons_varNames, renCons_parentVarDims,
                  renCons_varCoefs, renCons_lower, renCons_upper, renCons_nRows,
                  renCons_isRange, renCons_variables, renVar_parentDim, renVar_parent,
                  renVar_vid, renVar_indices, getD_map_f, List.map_append, List.map_cons,
                  List.map_nil, List.append_nil, List.nil_append, renCons_mk,
                  renCons_mk_cons, if_true, if_false, hr, Bool.false_eq_true,
                  isCyExprVal, Bool.not_true, Bool.not_false, Bool.and_true,
                  Bool.and_false, Bool.or_false, Bool.false_or, ite_self,
                  apply_ite (List.map (renWrite f)), apply_ite (renCons f),
                  apply_ite CyLPConstraint.varNames, apply_ite CyLPConstraint.parentVarDims,
                  apply_ite CyLPConstraint.varCoefs, apply_ite CyLPConstraint.lower,
                  apply_ite CyLPConstraint.upper, apply_ite CyLPConstraint.nRows,
                  apply_ite CyLPConstraint.isRange, apply_ite CyLPConstraint.variables]
            | matx m2 =>
                cases l <;> (try simp only [renExpr, isCyExprVal, Bool.not_true,
                  Bool.not_false, Bool.and_true, Bool.and_false, Bool.false_eq_true,
                  if_true, if_false]) <;>
                first
                | rfl
                | simp only [Except.map, renWrite, renCons_varNames, renCons_parentVarDims,
                  renCons_varCoefs, renCons_lower, renCons_upper, renCons_nRows,
                  renCons_isRange, renCons_variables, renVar_parentDim, renVar_parent,
                  renVar_vid, renVar_indices, getD_map_f, List.map_append, List.map_cons,
                  List.map_nil, List.append_nil, List.nil_append, renCons_mk,
                  renCons_mk_cons, if_true, if_false, hr, Bool.false_eq_true,
                  isCyExprVal, Bool.not_true, Bool.not_false, Bool.and_true,
                  Bool.and_false, Bool.or_false, Bool.false_or, ite_self,
                  apply_ite (List.map (renWrite f)), apply_ite (renCons f),
                  apply_ite CyLPConstraint.varNames, apply_ite CyLPConstraint.parentVarDims,
                  apply_ite CyLPConstraint.varCoefs, apply_ite CyLPConstraint.lower,
                  apply_ite CyLPConstraint.upper, apply_ite CyLPConstraint.nRows,
                  apply_ite CyLPConstraint.isRange, apply_ite CyLPConstraint.variables]
            | node o a b =>
                cases l <;> (try simp only [renExpr, isCyExprVal, Bool.not_true,
                  Bool.not_false, Bool.and_true, Bool.and_false, Bool.false_eq_true,
                  if_true, if_false]) <;>
                first
                | rfl
                | simp only [Except.map, renWrite, renCons_varNames, renCons_parentVarDims,
                  renCons_varCoefs, renCons_lower, renCons_upper, renCons_nRows,
                  renCons_isRange, renCons_variables, renVar_parentDim, renVar_parent,
                  renVar_vid, renVar_indices, getD_map_f, List.map_append, List.map_cons,
                  List.map_nil, List.append_nil, List.nil_append, renCons_mk,
                  renCons_mk_cons, if_true, if_false, hr, Bool.false_eq_true,
                  isCyExprVal, Bool.not_true, Bool.not_false, Bool.and_true,
                  Bool.and_false, Bool.or_false, Bool.false_or, ite_self,
                  apply_ite (List.map (renWrite f)), apply_ite (renCons f),
                  apply_ite CyLPConstraint.varNames, apply_ite CyLPConstraint.parentVarDims,
                  apply_ite CyLPConstraint.varCoefs, apply_ite CyLPConstraint.lower,
                  apply_ite CyLPConstraint.upper, apply_ite CyLPConstraint.nRows,
                  apply_ite CyLPConstraint.isRange, apply_ite CyLPConstraint.variables]
            | pystr s2 =>
                cases l <;> (try simp only [renExpr, isCyExprVal, Bool.not_true,
                  Bool.not_false, Bool.and_true, Bool.and_false, Bool.false_eq_true,
                  if_true, if_false]) <;>
                first
                | rfl
                | simp only [Except.map, renWrite, renCons_varNames, renCons_parentVarDims,
                  renCons_varCoefs, renCons_lower, renCons_upper, renCons_nRows,
                  renCons_isRange, renCons_variables, renVar_parentDim, renVar_parent,
                  renVar_vid, renVar_indices, getD_map_f, List.map_append, List.map_cons,
                  List.map_nil, List.append_nil, List.nil_append, renCons_mk,
                  renCons_mk_cons, if_true, if_false, hr, Bool.false_eq_true,
                  isCyExprVal, Bool.not_true, Bool.not_false, Bool.and_true,
                  Bool.and_false, Bool.or_false, Bool.false_or, ite_self,
                  apply_ite (List.map (renWrite f)), apply_ite (renCons f),
                  apply_ite CyLPConstraint.varNames, apply_ite CyLPConstraint.parentVarDims,
                  apply_ite CyLPConstraint.varCoefs, apply_ite CyLPConstraint.lower,
                  apply_ite CyLPConstraint.upper, apply_ite CyLPConstraint.nRows,
                  apply_ite CyLPConstraint.isRange, apply_ite CyLPConstraint.variables]
      · simp only [hr, Bool.false_eq_true, if_false]
        cases hn : c.nRows with
        | none => rfl
        | some n =>
            cases r with
            | num q =>
                simp only [renExpr]
                simp only [Except.map, renWrite, renCons_varNames, renCons_parentVarDims,
                  renCons_varCoefs, renCons_lower, renCons_upper, renCons_nRows,
                  renCons_isRange, renCons_variables, renVar_parentDim, renVar_parent,
                  renVar_vid, renVar_indices, getD_map_f, List.map_append, List.map_cons,
                  List.map_nil, List.append_nil, List.nil_append, renCons_mk,
                  renCons_mk_cons, if_true, if_false, hr, Bool.false_eq_true,
                  isCyExprVal, Bool.not_true, Bool.not_false, Bool.and_true,
                  Bool.and_false, Bool.or_false, Bool.false_or, ite_self,
                  apply_ite (List.map (renWrite f)), apply_ite (renCons f),
                  apply_ite CyLPConstraint.varNames, apply_ite CyLPConstraint.parentVarDims,
                  apply_ite CyLPConstraint.varCoefs, apply_ite CyLPConstraint.lower,
                  apply_ite CyLPConstraint.upper, apply_ite CyLPConstraint.nRows,
                  apply_ite CyLPConstraint.isRange, apply_ite CyLPConstraint.variables]
            | var rv =>
                cases l <;> (try simp only [renExpr, isCyExprVal, Bool.not_true,
                  Bool.not_false, Bool.and_true, Bool.and_false, Bool.false_eq_true,
                  if_true, if_false]) <;>
                first
                | rfl
                | simp only [Except.map, renWrite, renCons_varNames, renCons_parentVarDims,
                  renCons_varCoefs, renCons_lower, renCons_upper, renCons_nRows,
                  renCons_isRange, renCons_variables, renVar_parentDim, renVar_parent,
                  renVar_vid, renVar_indices, getD_map_f, List.map_append, List.map_cons,
                  List.map_nil, List.append_nil, List.nil_append, renCons_mk,
                  renCons_mk_cons, if_true, if_false, hr, Bool.false_eq_true,
                  isCyExprVal, Bool.not_true, Bool.not_false, Bool.and_true,
                  Bool.and_false, Bool.or_false, Bool.false_or, ite_self,
                  apply_ite (List.map (renWrite f)), apply_ite (renCons f),
                  apply_ite CyLPConstraint.varNames, apply_ite CyLPConstraint.parentVarDims,
                  apply_ite CyLPConstraint.varCoefs, apply_ite CyLPConstraint.lower,
                  apply_ite CyLPConstraint.upper, apply_ite CyLPConstraint.nRows,
                  apply_ite CyLPConstraint.isRange, apply_ite CyLPConstraint.variables]
            | arr a2 =>
                cases l <;> (try simp only [renExpr, isCyExprVal, Bool.not_true,
                  Bool.not_false, Bool.and_true, Bool.and_false, Bool.false_eq_true,
                  if_true, if_false]) <;>
                first
                | rfl
                | simp only [Except.map, renWrite, renCons_varNames, renCons_parentVarDims,
                  renCons_varCoefs, renCons_lower, renCons_upper, renCons_nRows,
                  renCons_isRange, renCons_variables, renVar_parentDim, renVar_parent,
                  renVar_vid, renVar_indices, getD_map_f, List.map_append, List.map_cons,
                  List.map_nil, List.append_nil, List.nil_append, renCons_mk,
                  renCons_mk_cons, if_true, if_false, hr, Bool.false_eq_true,
                  isCyExprVal, Bool.not_true, Bool.not_false, Bool.and_true,
                  Bool.and_false, Bool.or_false, Bool.false_or, ite_self,
                  apply_ite (List.map (renWrite f)), apply_ite (renCons f),
                  apply_ite CyLPConstraint.varNames, apply_ite CyLPConstraint.parentVarDims,
                  apply_ite CyLPConstraint.varCoefs, apply_ite CyLPConstraint.lower,
                  apply_ite CyLPConstraint.upper, apply_ite CyLPConstraint.nRows,
                  apply_ite CyLPConstraint.isRange, apply_ite CyLPConstraint.variables]
            | matx m2 =>
                cases l <;> (try simp only [renExpr, isCyExprVal, Bool.not_true,
                  Bool.not_false, Bool.and_true, Bool.and_false, Bool.false_eq_true,
                  if_true, if_false]) <;>
                first
                | rfl
                | simp only [Except.map, renWrite, renCons_varNames, renCons_parentVarDims,
                  renCons_varCoefs, renCons_lower, renCons_upper, renCons_nRows,
                  renCons_isRange, renCons_variables, renVar_parentDim, renVar_parent,
                  renVar_vid, renVar_indices, getD_map_f, List.map_append, List.map_cons,
                  List.map_nil, List.append_nil, List.nil_append, renCons_mk,
                  renCons_mk_cons, if_true, if_false, hr, Bool.false_eq_true,
                  isCyExprVal, Bool.not_true, Bool.not_false, Bool.and_true,
                  Bool.and_false, Bool.or_false, Bool.false_or, ite_self,
                  apply_ite (List.map (renWrite f)), apply_ite (renCons f),
                  apply_ite CyLPConstraint.varNames, apply_ite CyLPConstraint.parentVarDims,
                  apply_ite CyLPConstraint.varCoefs, apply_ite CyLPConstraint.lower,
                  apply_ite CyLPConstraint.upper, apply_ite CyLPConstraint.nRows,
                  apply_ite CyLPConstraint.isRange, apply_ite CyLPConstraint.variables]
            | node o a b =>
                cases l <;> (try simp only [renExpr, isCyExprVal, Bool.not_true,
                  Bool.not_false, Bool.and_true, Bool.and_false, Bool.false_eq_true,
                  if_true, if_false]) <;>
                first
                | rfl
                | simp only [Except.map, renWrite, renCons_varNames, renCons_parentVarDims,
                  renCons_varCoefs, renCons_lower, renCons_upper, renCons_nRows,
                  renCons_isRange, renCons_variables, renVar_parentDim, renVar_parent,
                  renVar_vid, renVar_indices, getD_map_f, List.map_append, List.map_cons,
                  List.map_nil, List.append_nil, List.nil_append, renCons_mk,
                  renCons_mk_cons, if_true, if_false, hr, Bool.false_eq_true,
                  isCyExprVal, Bool.not_true, Bool.not_false, Bool.and_true,
                  Bool.and_false, Bool.or_false, Bool.false_or, ite_self,
                  apply_ite (List.map (renWrite f)), apply_ite (renCons f),
                  apply_ite CyLPConstraint.varNames, apply_ite CyLPConstraint.parentVarDims,
                  apply_ite CyLPConstraint.varCoefs, apply_ite CyLPConstraint.lower,
                  apply_ite CyLPConstraint.upper, apply_ite CyLPConstraint.nRows,
                  apply_ite CyLPConstraint.isRange, apply_ite CyLPConstraint.variables]
            | pystr s2 =>
                cases l <;> (try simp only [renExpr, isCyExprVal, Bool.not_true,
                  Bool.not_false, Bool.and_true, Bool.and_false, Bool.false_eq_true,
                  if_true, if_false]) <;>
                first
                | rfl
                | simp only [Except.map, renWrite, renCons_varNames, renCons_parentVarDims,
                  renCons_varCoefs, renCons_lower, renCons_upper, renCons_nRows,
                  renCons_isRange, renCons_variables, renVar_parentDim, renVar_parent,
                  renVar_vid, renVar_indices, getD_map_f, List.map_append, List.map_cons,
                  List.map_nil, List.append_nil, List.nil_append, renCons_mk,
                  renCons_mk_cons, if_true, if_false, hr, Bool.false_eq_true,
                  isCyExprVal, Bool.not_true, Bool.not_false, Bool.and_true,
                  Bool.and_false, Bool.or_false, Bool.false_or, ite_self,
                  apply_ite (List.map (renWrite f)), apply_ite (renCons f),
                  apply_ite CyLPConstraint.varNames, apply_ite CyLPConstraint.parentVarDims,
                  apply_ite CyLPConstraint.varCoefs, apply_ite CyLPConstraint.lower,
                  apply_ite CyLPConstraint.upper, apply_ite CyLPConstraint.nRows,
                  apply_ite CyLPConstraint.isRange, apply_ite CyLPConstraint.variables]
    · rfl
  · rfl

theorem perform_ren (f : Nat → Nat) (hf : Function.Injective f) (opr : String)
    (l r : CyLPExpr) (c : CyLPConstraint) :
    CyLPConstraint.perform (renCons f c) opr (renExpr f l) (renExpr f r) =
      (CyLPConstraint.perform c opr l r).map
        (fun p => (renCons f p.1, p.2.map (renWrite f))) := by
  simp only [CyLPConstraint.perform]
  rw [performBlock1_ren f hf]
  cases h1 : performBlock1 (decodeOp opr) l r c with
  | error e => rfl
  | ok c1 =>
      simp only [Except.map]
      rw [performBlock2_ren f hf, performBlock3_ren f hf]
      cases h3 : performBlock3 (decodeOp opr) r (performBlock2 (decodeOp opr) l c1) with
      | error e => rfl
      | ok c3 =>
          simp only [Except.map]
          exact performBlock4_ren f hf (decodeOp opr) l r c3

theorem any_pyVarEq_ren (f : Nat → Nat) (l : List CyLPVar) (v : CyLPVar) :
    (l.map (renVar f)).any (fun w => pyVarEq w (renVar f v)) =
      l.any (fun w => pyVarEq w v) := by
  rw [List.any_map]
  congr 1

theorem stepTok_ren (f : Nat → Nat) (hf : Function.Injective f) (c : CyLPConstraint)
    (stack : List CyLPExpr) (t : Tok) :
    stepTok (renCons f c) (stack.map (renExpr f)) (renTok f t) =
      (stepTok c stack t).map
        (fun x => (renCons f x.1, x.2.1.map (renExpr f), x.2.2.map (renWrite f))) := by
  cases t with
  | inl e =>
      cases e with
      | var v =>
          simp only [stepTok, renTok, renExpr, renCons_variables, any_pyVarEq_ren]
          split
          · rfl
          · simp only [Except.map, renCons, renCoefs, renExpr, List.map_append,
              List.map_cons, List.map_nil]
      | num q => rfl
      | arr a => rfl
      | matx m => rfl
      | node o a b => rfl
      | pystr s => rfl
  | inr s =>
      simp only [stepTok, renTok]
      by_cases hs : cyOperators.contains s
      · simp only [hs, if_true]
        by_cases hu : (s == "u-") = true
        · simp only [hu, if_true]
          cases stack with
          | nil => rfl
          | cons rr rest =>
              simp only [List.map_cons]
              have hpr := perform_ren f hf s (.pystr "") rr c
              simp only [renExpr] at hpr
              rw [hpr]
              cases hp : CyLPConstraint.perform c s (.pystr "") rr with
              | error e => rfl
              | ok p => rfl
        · simp only [hu, Bool.false_eq_true, if_false]
          cases stack with
          | nil => rfl
          | cons rr rest =>
              cases rest with
              | nil => rfl
              | cons ll rest2 =>
                  simp only [List.map_cons]
                  rw [perform_ren f hf]
                  cases hp : CyLPConstraint.perform c s ll rr with
                  | error e => rfl
                  | ok p => rfl
      · simp only [hs, Bool.false_eq_true, if_false]
        rfl

theorem getPostfix_ren (f : Nat → Nat) (e : CyLPExpr) :
    (renExpr f e).getPostfix = e.getPostfix.map (renTok f) := by
  induction e with
  | node o a b iha ihb =>
      simp only [renExpr, CyLPExpr.getPostfix, isCyExprVal_ren, List.map_append]
      split <;> split <;>
        simp only [iha, ihb, List.map_cons, List.map_nil, renTok]
  | var v => rfl
  | num q => rfl
  | arr a => rfl
  | matx m => rfl
  | pystr s => rfl

theorem walkTokens_sim (f : Nat → Nat) (hf : Function.Injective f) (toks : List Tok) :
    ∀ (c : CyLPConstraint) (stack : List CyLPExpr) (st st2 : BoundStore)
      (c1 : CyLPConstraint) (stack1 : List CyLPExpr) (st1 : BoundStore)
      (c2 : CyLPConstraint) (stack2 : List CyLPExpr) (st2' : BoundStore),
      walkTokens toks c stack st = .ok (c1, stack1, st1) →
      walkTokens (toks.map (renTok f)) (renCons f c) (stack.map (renExpr f)) st2 =
        .ok (c2, stack2, st2') →
      c2 = renCons f c1 ∧ stack2 = stack1.map (renExpr f) := by
  induction toks with
  | nil =>
      intro c stack st st2 c1 stack1 st1 c2 stack2 st2' h1 h2
      simp only [walkTokens, List.map_nil, Except.ok.injEq, Prod.mk.injEq] at h1 h2
      obtain ⟨hc1, hs1, _⟩ := h1
      obtain ⟨hc2, hs2, _⟩ := h2
      subst hc1
      subst hs1
      exact ⟨hc2.symm, hs2.symm⟩
  | cons t ts ih =>
      intro c stack st st2 c1 stack1 st1 c2 stack2 st2' h1 h2
      simp only [walkTokens, List.map_cons] at h1 h2
      rw [stepTok_ren f hf] at h2
      cases hstep : stepTok c stack t with
      | error e =>
          rw [hstep] at h1
          simp at h1
      | ok trip =>
          rw [hstep] at h1 h2
          simp only [Except.map] at h1 h2
          cases happ : applyWrites st trip.2.2 with
          | error e =>
              rw [happ] at h1
              simp at h1
          | ok stA =>
              rw [happ] at h1
              cases happ2 : applyWrites st2 (trip.2.2.map (renWrite f)) with
              | error e =>
                  rw [happ2] at h2
                  simp at h2
              | ok stB =>
                  rw [happ2] at h2
                  exact ih trip.1 trip.2.1 stA stB c1 stack1 st1 c2 stack2 st2' h1 h2

theorem renCoefs_snd (f : Nat → Nat) (l : List (CyLPVar × Coef)) :
    (renCoefs f l).map (fun p => p.2) = l.map (fun p => p.2) := by
  simp [renCoefs]

/-- C3: evaluating the same constraint expression twice, the second time on
fresh copies of its variables (same attributes, new object identities, modeled
by an injective id-renaming applied to every variable of the tree), yields
bit-identical coefficient maps (the varCoefs dict corresponds key-by-key
through the copy map with identical coefficient values, negated ones included)
and bit-identical lower and upper bound vectors, whatever the bound stores and
expr-pointer states of the two runs are. -/
theorem evaluate_fresh_copies (f : Nat → Nat) (hf : Function.Injective f)
    (e : CyLPExpr) (st st2 st1 st2' : BoundStore) (fl fl2 fl1 fl2' : FlagStore)
    (c c2 : CyLPConstraint)
    (h1 : CyLPExpr.evaluate e st fl = .ok (c, st1, fl1))
    (h2 : CyLPExpr.evaluate (renExpr f e) st2 fl2 = .ok (c2, st2', fl2')) :
    c2.varCoefs = renCoefs f c.varCoefs ∧
    c2.varCoefs.map (fun p => p.2) = c.varCoefs.map (fun p => p.2) ∧
    c2.lower = c.lower ∧ c2.upper = c.upper := by
  simp only [CyLPExpr.evaluate] at h1 h2
  rw [getPostfix_ren] at h2
  cases hw : walkTokens e.getPostfix CyLPConstraint.init [] st with
  | error err =>
      rw [hw] at h1
      simp at h1
  | ok trip =>
      rw [hw] at h1
      cases hw2 : walkTokens (e.getPostfix.map (renTok f)) CyLPConstraint.init [] st2 with
      | error err =>
          rw [hw2] at h2
          simp at h2
      | ok trip2 =>
          rw [hw2] at h2
          have hsim := walkTokens_sim f hf e.getPostfix CyLPConstraint.init [] st st2
            trip.1 trip.2.1 trip.2.2 trip2.1 trip2.2.1 trip2.2.2 (by rw [hw]) (by exact hw2)
          obtain ⟨hc, hs⟩ := hsim
          simp only [Except.ok.injEq, Prod.mk.injEq] at h1 h2
          obtain ⟨hc1, -, -⟩ := h1
          obtain ⟨hc2, -, -⟩ := h2
          have hfin : c2 = renCons f c := by
            rw [← hc1, ← hc2, hc, hs]
            cases htk : trip.2.1 with
            | nil => rfl
            | cons e0 tail =>
                cases tail with
                | cons e1 rest => cases e0 <;> rfl
                | nil =>
                    cases e0 with
                    | var v =>
                        simp only [List.map_cons, List.map_nil, renExpr]
                        simp only [renCons_varCoefs, renVar_dim, setCoef_ren f hf,
                          renCons_varNames, renCons_parentVarDims, renCons_lower,
                          renCons_upper, renCons_nRows, renCons_isRange,
                          renCons_variables, renCons_mk]
                    | num q => rfl
                    | arr a => rfl
                    | matx m => rfl
                    | node o a b => rfl
                    | pystr s => rfl
          refine ⟨?_, ?_, ?_, ?_⟩
          · rw [hfin, renCons_varCoefs]
          · rw [hfin, renCons_varCoefs, renCoefs_snd]
          · rw [hfin, renCons_lower]
          · rw [hfin, renCons_upper]

/-- Witness for C3 at the expression x - y <= 3 (x, y two fresh 2-dimensional
variables; the '-' node negates y's coefficient): re-evaluating on copies with
ids shifted by 10 reproduces the coefficient values and both bound vectors. -/
theorem evaluate_fresh_copies_witness :
    (let xv : CyLPVar := ⟨0, "x", 2, 2, none, none, none, none⟩
     let yv : CyLPVar := ⟨1, "y", 2, 2, none, none, none, none⟩
     let E : CyLPExpr := .node "<=" (.node "-" (.var xv) (.var yv)) (.num 3)
     let r := match CyLPExpr.evaluate E [] [] with
              | .ok v => v
              | .error _ => (CyLPConstraint.init, [], [])
     let r2 := match CyLPExpr.evaluate (renExpr (fun n => n + 10) E) [] [] with
               | .ok v => v
               | .error _ => (CyLPConstraint.init, [], [])
     r2.1.varCoefs = renCoefs (fun n => n + 10) r.1.varCoefs ∧
     r2.1.varCoefs.map (fun p => p.2) = r.1.varCoefs.map (fun p => p.2) ∧
     r2.1.lower = r.1.lower ∧ r2.1.upper = r.1.upper) := by
  dsimp only
  have hf : Function.Injective (fun n : Nat => n + 10) := fun a b h => by simpa using h
  exact evaluate_fresh_copies (fun n => n + 10) hf
    (.node "<=" (.node "-" (.var ⟨0, "x", 2, 2, none, none, none, none⟩)
      (.var ⟨1, "y", 2, 2, none, none, none, none⟩)) (.num 3))
    [] [] _ _ [] [] _ _ _ _ (by rfl) (by rfl)
